import Mathlib

/-!
Shallow embedding of the drquad32 boot-protocol engine
(`src/Tools/quadcontrol/BootProtocol.cpp`) and of the firmware-side message
sender (`src/Source/test.c`).

The engine's interaction with the outside world is made explicit as state:
the inbound message queue (`connection_messageReceived` enqueues, the
engine dequeues), the batches of messages delivered by each
`QApplication::processEvents()` call inside the response-wait loop, the
successive answers of `progressDialog.wasCanceled()` polls, the sticky
cancelled flag of the progress dialog, the mutable `m_errorString`, the
trace of requests passed to `connection.sendMessage`, and the trace of
timeouts passed to `bootGetResponse`.  UI-only calls (`showProgress`,
`qDebug`, timing) are presentation and are not modelled, per the spec's
scope section.
-/

/-- Modelled from the spec: the message ids of `msg_structs.h` (the header is
not under `src/`; only its symbolic names appear in the sources).  Only the
distinctness of the ids is ever used; the concrete values are arbitrary. -/
def MSG_ID_SHELL_FROM_PC : Nat := 1

/-- Modelled from the spec: message id of `BootEnter`. -/
def MSG_ID_BOOT_ENTER : Nat := 2

/-- Modelled from the spec: message id of `BootExit`. -/
def MSG_ID_BOOT_EXIT : Nat := 3

/-- Modelled from the spec: message id of `BootEraseSector`. -/
def MSG_ID_BOOT_ERASE_SECTOR : Nat := 4

/-- Modelled from the spec: message id of `BootWriteData`. -/
def MSG_ID_BOOT_WRITE_DATA : Nat := 5

/-- Modelled from the spec: message id of `BootVerify`. -/
def MSG_ID_BOOT_VERIFY : Nat := 6

/-- Modelled from the spec: message id of `BootResponse`. -/
def MSG_ID_BOOT_RESPONSE : Nat := 7

/-- The `FLASH_Status` enum of BootProtocol.cpp, lines 30-40. -/
def FLASH_BUSY : Nat := 1

def FLASH_ERROR_RD : Nat := 2

def FLASH_ERROR_PGS : Nat := 3

def FLASH_ERROR_PGP : Nat := 4

def FLASH_ERROR_PGA : Nat := 5

def FLASH_ERROR_WRP : Nat := 6

def FLASH_ERROR_PROGRAM : Nat := 7

def FLASH_ERROR_OPERATION : Nat := 8

def FLASH_COMPLETE : Nat := 9

/-- `flashStatusStr` (BootProtocol.cpp lines 43-57): decode a status byte to
its enum name, unknown values printed with `sprintf("%d", status)`. -/
def flashStatusStr : Nat → String
  | 1 => "FLASH_BUSY"
  | 2 => "FLASH_ERROR_RD"
  | 3 => "FLASH_ERROR_PGS"
  | 4 => "FLASH_ERROR_PGP"
  | 5 => "FLASH_ERROR_PGA"
  | 6 => "FLASH_ERROR_WRP"
  | 7 => "FLASH_ERROR_PROGRAM"
  | 8 => "FLASH_ERROR_OPERATION"
  | 9 => "FLASH_COMPLETE"
  | st => Nat.repr st

/-- An inbound message as queued by `connection_messageReceived`: header id
plus payload bytes (a `msg_generic`; a `msg_boot_response` is the same bytes
reinterpreted, so `data` doubles as the response payload). -/
structure Msg where
  id : Nat
  data : List Nat
deriving DecidableEq

/-- The payload byte `res.data[0]` read by the status checks. -/
def statusOf (m : Msg) : Nat := m.data.headD 0

/-- A request passed to `connection.sendMessage`, as recorded in the trace of
outgoing messages. -/
inductive Req where
  | shellFromPc (text : String)
  | bootEnter (magic : Nat)
  | bootExit
  | eraseSector (sector : Nat)
  | writeData (address : Nat) (data : List Nat)
  | verify (address length : Nat)
deriving DecidableEq

/-- The engine state: message queue, pending `processEvents` arrival batches,
the scheduled `wasCanceled` poll answers with the dialog's sticky flag,
`m_errorString`, and the audit traces of sent requests and await timeouts. -/
structure BPState where
  messageQueue : List Msg
  arrivals : List (List Msg)
  cancels : List Bool
  canceled : Bool
  errorString : String
  sent : List Req
  awaits : List Nat
deriving DecidableEq

/-- `connection.sendMessage(&msg.h)`: append the request to the outgoing
trace. -/
def sendMessage (s : BPState) (r : Req) : BPState :=
  { s with sent := s.sent ++ [r] }

/-- `progressDialog.wasCanceled()`: consume the next scheduled poll answer;
the dialog's flag is sticky (once cancelled it stays cancelled until the
dialog is reset). -/
def wasCanceled (s : BPState) : Bool × BPState :=
  let c := s.canceled || s.cancels.headD false
  (c, { s with canceled := c, cancels := s.cancels.tail })

/-- Inner drain loop of `bootGetResponse` (lines 93-101): dequeue messages
until one with id `MSG_ID_BOOT_RESPONSE` appears; messages dequeued before it
are discarded. -/
def drainQueue : List Msg → Option Msg × List Msg
  | [] => (none, [])
  | m :: rest =>
    if m.id = MSG_ID_BOOT_RESPONSE then (some m, rest) else drainQueue rest

/-- One iteration of `bootGetResponse`'s outer `while (timeout > 0)` loop per
fuel unit: drain the queue; if no response was found the queue is empty, and
`processEvents` then delivers the next arrival batch before the 10 ms sleep
decrements the budget.  Exhausted fuel is the timeout exit setting
`m_errorString = "Time out"`. -/
def bootGetResponseAux : Nat → BPState → Option Msg × BPState
  | 0, s => (none, { s with errorString := "Time out" })
  | n + 1, s =>
    match drainQueue s.messageQueue with
    | (some m, q) => (some m, { s with messageQueue := q })
    | (none, _) =>
      bootGetResponseAux n
        { s with messageQueue := s.arrivals.headD [], arrivals := s.arrivals.tail }

/-- The outer loop runs while `timeout > 0`, subtracting 10 each round:
`ceil(timeout / 10)` iterations. -/
def pollIterations (timeout : Nat) : Nat := (timeout + 9) / 10

/-- `bootGetResponse` (lines 90-110).  The timeout passed by the caller is
recorded in `awaits`; the C++ declaration's default argument (the header is
not under `src/`) is passed explicitly as `dt` by the callers below. -/
def bootGetResponse (timeout : Nat) (s : BPState) : Option Msg × BPState :=
  bootGetResponseAux (pollIterations timeout) { s with awaits := s.awaits ++ [timeout] }

/-- `bootResetHack` (lines 113-126): send ctrl-c plus a reset command on the
shell side channel. -/
def bootResetHack (s : BPState) : Bool × BPState :=
  (true, sendMessage s (.shellFromPc "\x03\nreset\n"))

/-- `bootEnter` (lines 130-153). -/
def bootEnter (dt : Nat) (s : BPState) : Bool × BPState :=
  let (_, s) := bootResetHack s
  let s := sendMessage s (.bootEnter 0xB00710AD)
  match bootGetResponse dt s with
  | (none, s) => (false, s)
  | (some res, s) =>
    if statusOf res ≠ 1 then
      (false, { s with errorString := "Can't enter bootloader: " ++ Nat.repr (statusOf res) })
    else
      (true, s)

/-- `bootExit` (lines 156-175). -/
def bootExit (dt : Nat) (s : BPState) : Bool × BPState :=
  let s := sendMessage s .bootExit
  match bootGetResponse dt s with
  | (none, s) => (false, s)
  | (some res, s) =>
    if statusOf res ≠ 1 then
      (false, { s with errorString := "Can't exit bootloader: " ++ Nat.repr (statusOf res) })
    else
      (true, s)

/-- Hex digits of `n` (lowercase), as printed by `sprintf("%x")`. -/
def hexDigits (n : Nat) : List Char := Nat.toDigits 16 n

/-- Zero-pad a digit string on the left to the given minimum width. -/
def padLeft (width : Nat) (l : List Char) : List Char :=
  List.replicate (width - l.length) '0' ++ l

/-- `sprintf("%08x", n)`. -/
def hex8 (n : Nat) : String := String.mk (padLeft 8 (hexDigits n))

/-- `sprintf("%04x", n)`: at least four hex digits, longer values are printed
in full (printf field widths are minima, never truncation). -/
def hex4 (n : Nat) : String := String.mk (padLeft 4 (hexDigits n))

/-- `bootEraseSector` (lines 178-199): note the explicit 2000 ms timeout. -/
def bootEraseSector (sector : Nat) (s : BPState) : Bool × BPState :=
  let s := sendMessage s (.eraseSector sector)
  match bootGetResponse 2000 s with
  | (none, s) => (false, s)
  | (some res, s) =>
    if statusOf res ≠ FLASH_COMPLETE then
      (false, { s with errorString :=
        "Can't erase sector " ++ Nat.repr sector ++ ": " ++ flashStatusStr (statusOf res) })
    else
      (true, s)

/-- `bootWriteDataAsync` (lines 202-216): send one write-data chunk without
waiting for its acknowledgement. -/
def bootWriteDataAsync (addr : Nat) (data : List Nat) (s : BPState) : Bool × BPState :=
  (true, sendMessage s (.writeData addr data))

/-- `data.mid(offset, chunk_size)` on a byte list. -/
def midChunk (data : List Nat) (offset cs : Nat) : List Nat :=
  (data.drop offset).take cs

/-- Send phase of one iteration of `bootWriteData`'s loop (lines 230-241):
while chunks remain, send the next chunk, advance `offset`, then poll
`wasCanceled` (an early `return true` when cancelled).  `Sum.inl` is an early
return of the whole function, `Sum.inr` carries the updated offset. -/
def sendPhase (cs addr : Nat) (data : List Nat) (chunks i offset : Nat) (s : BPState) :
    Sum (Bool × BPState) (Nat × BPState) :=
  if i < chunks then
    let (_, s) := bootWriteDataAsync (addr + offset) (midChunk data offset cs) s
    let offset := offset + cs
    let (c, s) := wasCanceled s
    if c then Sum.inl (true, s) else Sum.inr (offset, s)
  else
    Sum.inr (offset, s)

/-- Acknowledge phase of one iteration of `bootWriteData`'s loop (lines
245-258): once `ack_window` chunks are outstanding, consume one pending
response; a timeout or a status other than `FLASH_COMPLETE` is an early
`return false`.  The error message interpolates `addr`, the base address of
the whole region, not the failing chunk's own address. -/
def ackPhase (dt addr W i : Nat) (s : BPState) : Sum (Bool × BPState) BPState :=
  if W ≤ i then
    match bootGetResponse dt s with
    | (none, s) => Sum.inl (false, s)
    | (some res, s) =>
      if statusOf res ≠ FLASH_COMPLETE then
        Sum.inl (false, { s with errorString :=
          "Can't write data at 0x" ++ hex8 addr ++ ": " ++ flashStatusStr (statusOf res) })
      else
        Sum.inr s
  else
    Sum.inr s

/-- Outcome of running `bootWriteData`'s loop for a bounded number of
iterations: either the function returned (`ret`), or the fuel ran out with
the loop still at index `i` (`cont`). -/
inductive WriteOut where
  | ret (b : Bool) (s : BPState)
  | cont (i offset : Nat) (s : BPState)
deriving DecidableEq

/-- The `for (i=0; i < chunks + ack_window; i++)` loop of `bootWriteData`
(lines 227-259), one iteration per fuel unit. -/
def writeLoopAux (dt cs addr : Nat) (data : List Nat) (chunks W : Nat) :
    Nat → Nat → Nat → BPState → WriteOut
  | 0, i, offset, s => .cont i offset s
  | fuel + 1, i, offset, s =>
    if i < chunks + W then
      match sendPhase cs addr data chunks i offset s with
      | .inl (b, s) => .ret b s
      | .inr (offset, s) =>
        match ackPhase dt addr W i s with
        | .inl (b, s) => .ret b s
        | .inr s => writeLoopAux dt cs addr data chunks W fuel (i + 1) offset s
    else
      .ret true s

/-- Number of chunks `(data.length() + chunk_size - 1) / chunk_size`. -/
def chunksOf (cs : Nat) (data : List Nat) : Nat := (data.length + cs - 1) / cs

/-- `bootWriteData` (lines 219-262).  `cs` stands for
`sizeof(msg_boot_write_data::data)` (the struct lives in `msg_structs.h`,
not under `src/`), `dt` for the default `bootGetResponse` timeout.  Fuel
`chunks + W` covers every loop iteration, so a `cont` result is the normal
loop exit (`return true`). -/
def bootWriteData (dt cs : Nat) (addr : Nat) (data : List Nat) (s : BPState) : Bool × BPState :=
  let chunks := chunksOf cs data
  let W := min chunks 10
  match writeLoopAux dt cs addr data chunks W (chunks + W) 0 0 s with
  | .ret b s => (b, s)
  | .cont _ _ s => (true, s)

/-- `*(uint*)res.data`: the response payload's first four bytes read as a
little-endian 32-bit word. -/
def wordAt (data : List Nat) : Nat :=
  data.getD 0 0 + 256 * data.getD 1 0 + 65536 * data.getD 2 0 + 16777216 * data.getD 3 0

/-- `bootVerifyData` (lines 264-293).  `crc32fn` stands for the composite
`crc32_finalize(crc32_update(crc32_init(), data, len))` of
`Libraries/crc/crc32.h` (not under `src/`); every theorem below holds for an
arbitrary checksum function. -/
def bootVerifyData (crc32fn : List Nat → Nat) (dt : Nat) (addr : Nat) (data : List Nat)
    (s : BPState) : Bool × BPState :=
  let s := sendMessage s (.verify addr data.length)
  match bootGetResponse dt s with
  | (none, s) => (false, s)
  | (some res, s) =>
    let remote_crc := wordAt res.data
    let local_crc := crc32fn data
    if remote_crc ≠ local_crc then
      (false, { s with errorString :=
        "Image CRC check failed. Expected 0x" ++ hex4 local_crc ++ ", got 0x" ++ hex4 remote_crc })
    else
      (true, s)

/-- The `STEP` macro (lines 298-303) in continuation style: run one step; a
failing step returns `false` from the whole pipeline; a cancellation observed
at the step boundary returns `true` without running the continuation. -/
def STEP (f k : BPState → Bool × BPState) (s : BPState) : Bool × BPState :=
  let (b, s) := f s
  if !b then (false, s)
  else
    let (c, s) := wasCanceled s
    if c then (true, s) else k s

/-- Result of the enter-retry loop of `sendHexFile` (lines 330-334): either a
cancellation returned `true` early, or the loop finished with `ok`'s final
value. -/
inductive EnterRes where
  | cancelled (s : BPState)
  | done (ok : Bool) (s : BPState)
deriving DecidableEq

/-- The `while (tries++ < 100 && !ok)` loop of `sendHexFile`: one fuel unit
per remaining try.  Each iteration runs `bootEnter` (the `STEP` argument
`(ok=bootEnter(), true)` never fails) and then polls `wasCanceled`. -/
def enterLoop (dt : Nat) : Nat → BPState → EnterRes
  | 0, s => .done false s
  | fuel + 1, s =>
    let (ok, s) := bootEnter dt s
    let (c, s) := wasCanceled s
    if c then .cancelled s
    else if ok then .done true s
    else enterLoop dt fuel s

/-- The `for (int i=4; i<12; i++) STEP(bootEraseSector(i))` loop of
`sendHexFile` (lines 343-349), in continuation style. -/
def eraseLoop : List Nat → (BPState → Bool × BPState) → BPState → Bool × BPState
  | [], k, s => k s
  | i :: rest, k, s => STEP (bootEraseSector i) (eraseLoop rest k) s

/-- `sendHexFile` (lines 306-381) after the hex file has been loaded: the
IntelHexFile parser is an external collaborator (spec section 1), so the
model takes section 0's `offset` (`start_addr`) and `data` directly.
`progressDialog.reset()` clears the dialog's sticky cancelled flag. -/
def sendHexFile (crc32fn : List Nat → Nat) (dt cs : Nat) (start_addr : Nat) (data : List Nat)
    (s : BPState) : Bool × BPState :=
  let s := { s with canceled := false }
  match enterLoop dt 100 s with
  | .cancelled s => (true, s)
  | .done ok s =>
    if !ok then (false, { s with errorString := "Can't enter boot loader" })
    else
      eraseLoop [4, 5, 6, 7, 8, 9, 10, 11]
        (STEP (bootWriteData dt cs (start_addr + 8) (data.drop 8))
          (STEP (bootVerifyData crc32fn dt (start_addr + 8) (data.drop 8))
            (STEP (bootWriteData dt cs start_addr (data.take 8))
              (STEP (bootExit dt) (fun s => (true, s))))))
        s

/-- All messages a run started in state `s` could ever dequeue: the current
queue plus every pending `processEvents` arrival batch. -/
def availMsgs (s : BPState) : List Msg := s.messageQueue ++ s.arrivals.flatten

/-- No cancellation is ever requested in state `s`: no scheduled poll answers
and the dialog flag clear. -/
def noCancel (s : BPState) : Prop := s.cancels = [] ∧ s.canceled = false

/-- The write requests a completed `bootWriteData` loop issues, chunk by
chunk: `n` chunks starting at byte offset `offset` into `data`. -/
def chunkSendsAux (cs addr : Nat) (data : List Nat) : Nat → Nat → List Req
  | 0, _ => []
  | n + 1, offset =>
    .writeData (addr + offset) (midChunk data offset cs) :: chunkSendsAux cs addr data n (offset + cs)

/-- All write requests of a completed `bootWriteData addr data` run. -/
def chunkSends (cs addr : Nat) (data : List Nat) : List Req :=
  chunkSendsAux cs addr data (chunksOf cs data) 0

/-- The requests one `bootEnter` attempt sends: the reset side channel
followed by the enter message. -/
def enterAttemptReqs : List Req :=
  [.shellFromPc "\x03\nreset\n", .bootEnter 0xB00710AD]

/-- The requests `k` consecutive `bootEnter` attempts send. -/
def enterReqs (k : Nat) : List Req := (List.replicate k enterAttemptReqs).flatten

/-- The erase requests of `sendHexFile`'s sector loop (sectors 4 to 11). -/
def eraseReqs : List Req :=
  [.eraseSector 4, .eraseSector 5, .eraseSector 6, .eraseSector 7,
   .eraseSector 8, .eraseSector 9, .eraseSector 10, .eraseSector 11]

/-- Number of `bootEnter` requests in a trace (used to count enter attempts). -/
def countEnter (l : List Req) : Nat :=
  l.countP (fun r => match r with | .bootEnter _ => true | _ => false)

/-!
The firmware-side sender of `src/Source/test.c`.  `crc16fn` stands for the
composite `crc16_finalize(crc16_update(crc16_init(), bytes, len))` of
`Shared/crc16.h` and `cobsr_encode` for the COBS/R encoder of
`Shared/cobsr.h` (neither header is under `src/`); the theorems hold for
arbitrary such functions.  A `none` encoder result is the `res < 0` error
path.
-/

/-- A message to be sent: 16-bit id and payload.  Modelled from the spec:
`msg_structs.h` (not under `src/`) lays a message out as
`data_len ‖ crc ‖ id ‖ payload` with `data_len` not transmitted, so the
checksum region starting at `&msg->id` is `id ‖ payload` and the encode
region starting at `&msg->crc` is `crc ‖ id ‖ payload`; `data_len` always
holds the payload length. -/
structure CMsg where
  id : Nat
  data : List Nat

/-- A 16-bit value as its two little-endian bytes. -/
def bytes16 (n : Nat) : List Nat := [n % 256, n / 256 % 256]

/-- `msg_calc_crc` (test.c lines 27-33): checksum over the two id bytes
followed by the `data_len` payload bytes. -/
def msg_calc_crc (crc16fn : List Nat → Nat) (m : CMsg) : Nat :=
  crc16fn (bytes16 m.id ++ m.data)

/-- `msg_send` (test.c lines 36-56): stamp the crc, COBS/R-encode
`crc ‖ id ‖ payload`, append the 0x00 end-of-packet marker, and emit a
leading 0x00 before the frame.  Returns the C function's return value
(`data_len`, or -1 when encoding fails) together with every byte written to
the wire. -/
def msg_send (crc16fn : List Nat → Nat) (cobsr_encode : List Nat → Option (List Nat))
    (m : CMsg) : Int × List Nat :=
  let crc := msg_calc_crc crc16fn m
  match cobsr_encode (bytes16 crc ++ bytes16 m.id ++ m.data) with
  | none => (-1, [])
  | some enc => ((m.data.length : Int), 0 :: (enc ++ [0]))

/-! ### Helper lemmas -/

theorem drainQueue_cons_resp (m : Msg) (q : List Msg) (h : m.id = MSG_ID_BOOT_RESPONSE) :
    drainQueue (m :: q) = (some m, q) := by
  simp [drainQueue, h]

theorem drainQueue_skip (pre rest : List Msg)
    (h : ∀ x ∈ pre, x.id ≠ MSG_ID_BOOT_RESPONSE) :
    drainQueue (pre ++ rest) = drainQueue rest := by
  induction pre with
  | nil => rfl
  | cons m pre ih =>
    have hm := h m (by simp)
    simp only [List.cons_append, drainQueue, if_neg hm]
    exact ih fun x hx => h x (by simp [hx])

theorem drainQueue_none (l : List Msg) (h : ∀ x ∈ l, x.id ≠ MSG_ID_BOOT_RESPONSE) :
    drainQueue l = (none, []) := by
  have := drainQueue_skip l [] h
  simpa using this

theorem bootGetResponse_found (t : Nat) (s : BPState) (pre : List Msg) (m : Msg) (q : List Msg)
    (ht : 0 < t) (hq : s.messageQueue = pre ++ m :: q)
    (hpre : ∀ x ∈ pre, x.id ≠ MSG_ID_BOOT_RESPONSE) (hm : m.id = MSG_ID_BOOT_RESPONSE) :
    bootGetResponse t s =
      (some m, { s with messageQueue := q, awaits := s.awaits ++ [t] }) := by
  obtain ⟨n, hn⟩ : ∃ n, pollIterations t = n + 1 :=
    ⟨pollIterations t - 1, by unfold pollIterations; omega⟩
  unfold bootGetResponse
  rw [hn]
  simp [bootGetResponseAux, hq, drainQueue_skip pre (m :: q) hpre, drainQueue_cons_resp m q hm]

theorem bootGetResponseAux_timeout (n : Nat) (s : BPState)
    (h : ∀ x ∈ availMsgs s, x.id ≠ MSG_ID_BOOT_RESPONSE) :
    (bootGetResponseAux n s).1 = none ∧ (bootGetResponseAux n s).2.errorString = "Time out" := by
  induction n generalizing s with
  | zero => simp [bootGetResponseAux]
  | succ n ih =>
    have hq : ∀ x ∈ s.messageQueue, x.id ≠ MSG_ID_BOOT_RESPONSE := fun x hx =>
      h x (by simp [availMsgs, hx])
    rw [bootGetResponseAux, drainQueue_none s.messageQueue hq]
    apply ih
    intro x hx
    apply h
    cases harr : s.arrivals with
    | nil => simp [availMsgs, harr] at hx
    | cons b bs =>
      simp [availMsgs, harr] at hx ⊢
      tauto

theorem bootGetResponseAux_cancels (n : Nat) (s : BPState) :
    (bootGetResponseAux n s).2.cancels = s.cancels
    ∧ (bootGetResponseAux n s).2.canceled = s.canceled := by
  induction n generalizing s with
  | zero => simp [bootGetResponseAux]
  | succ n ih =>
    rw [bootGetResponseAux]
    cases hd : drainQueue s.messageQueue with
    | mk o q =>
      cases o with
      | some m => simp
      | none => simpa using ih _

theorem wasCanceled_fields (s : BPState) :
    (wasCanceled s).2.canceled = (wasCanceled s).1
    ∧ (wasCanceled s).2.sent = s.sent
    ∧ (wasCanceled s).2.errorString = s.errorString := by
  exact ⟨rfl, rfl, rfl⟩

/-! ### Claim theorems -/

/-- C10: while `bootGetResponse` waits, every queued message whose id is not
`MSG_ID_BOOT_RESPONSE` is dequeued and permanently discarded (the final
queue is exactly the part after the response; arrivals, error string and
cancellation state are untouched); the first `MSG_ID_BOOT_RESPONSE` message
in arrival order is returned; and if no response is available within the
timeout budget the call fails with `m_errorString = "Time out"`. -/
theorem c10_bootGetResponse_drain_first_timeout (t : Nat) (s : BPState)
    (pre : List Msg) (m : Msg) (q : List Msg) :
    (0 < t → s.messageQueue = pre ++ m :: q →
      (∀ x ∈ pre, x.id ≠ MSG_ID_BOOT_RESPONSE) → m.id = MSG_ID_BOOT_RESPONSE →
      bootGetResponse t s = (some m, { s with messageQueue := q, awaits := s.awaits ++ [t] }))
    ∧ ((∀ x ∈ availMsgs s, x.id ≠ MSG_ID_BOOT_RESPONSE) →
      (bootGetResponse t s).1 = none ∧ (bootGetResponse t s).2.errorString = "Time out") := by
  constructor
  · intro ht hq hpre hm
    exact bootGetResponse_found t s pre m q ht hq hpre hm
  · intro h
    unfold bootGetResponse
    apply bootGetResponseAux_timeout
    intro x hx
    apply h
    simpa [availMsgs] using hx

/-- Witness for C10: a queue holding a shell message, then a boot response,
then a further message: the shell message is discarded, the response is
returned, the third message stays queued; with only non-response traffic the
wait times out with the "Time out" error. -/
theorem c10_witness :
    bootGetResponse 10 ⟨[⟨1, []⟩, ⟨7, [5]⟩, ⟨3, []⟩], [], [], false, "", [], []⟩ =
      (some ⟨7, [5]⟩, ⟨[⟨3, []⟩], [], [], false, "", [], [10]⟩)
    ∧ (bootGetResponse 20 ⟨[⟨1, []⟩], [[⟨2, []⟩]], [], false, "x", [], []⟩).1 = none
    ∧ (bootGetResponse 20 ⟨[⟨1, []⟩], [[⟨2, []⟩]], [], false, "x", [], []⟩).2.errorString =
      "Time out" := by
  refine ⟨?_, ?_, ?_⟩
  · exact (c10_bootGetResponse_drain_first_timeout 10 _ [⟨1, []⟩] ⟨7, [5]⟩ [⟨3, []⟩]).1
      (by decide) rfl (by decide) rfl
  · exact ((c10_bootGetResponse_drain_first_timeout 20 _ [] ⟨0, []⟩ []).2 (by decide)).1
  · exact ((c10_bootGetResponse_drain_first_timeout 20 _ [] ⟨0, []⟩ []).2 (by decide)).2

/-- C7: `bootEraseSector` succeeds iff the response status byte equals the
`FLASH_COMPLETE` sentinel (value 9); any other status fails with a message
decoding the byte through `flashStatusStr`, whose range over the enum is the
fixed name set, with raw values outside the enum rendered numerically; the
response is awaited under the extended 2000 ms timeout (recorded in
`awaits`). -/
theorem c7_bootEraseSector_status (sector : Nat) (s : BPState) (m : Msg) (q : List Msg)
    (hq : s.messageQueue = m :: q) (hm : m.id = MSG_ID_BOOT_RESPONSE) :
    (statusOf m = FLASH_COMPLETE →
      bootEraseSector sector s =
        (true,
          { s with
            messageQueue := q
            sent := s.sent ++ [.eraseSector sector]
            awaits := s.awaits ++ [2000] }))
    ∧ (statusOf m ≠ FLASH_COMPLETE →
      bootEraseSector sector s =
        (false,
          { s with
            messageQueue := q
            sent := s.sent ++ [.eraseSector sector]
            awaits := s.awaits ++ [2000]
            errorString := "Can't erase sector " ++ Nat.repr sector ++ ": "
              ++ flashStatusStr (statusOf m) }))
    ∧ FLASH_COMPLETE = 9
    ∧ flashStatusStr 1 = "FLASH_BUSY" ∧ flashStatusStr 2 = "FLASH_ERROR_RD"
    ∧ flashStatusStr 3 = "FLASH_ERROR_PGS" ∧ flashStatusStr 4 = "FLASH_ERROR_PGP"
    ∧ flashStatusStr 5 = "FLASH_ERROR_PGA" ∧ flashStatusStr 6 = "FLASH_ERROR_WRP"
    ∧ flashStatusStr 7 = "FLASH_ERROR_PROGRAM" ∧ flashStatusStr 8 = "FLASH_ERROR_OPERATION"
    ∧ flashStatusStr 9 = "FLASH_COMPLETE"
    ∧ (∀ st, 10 ≤ st → flashStatusStr st = Nat.repr st)
    ∧ flashStatusStr 0 = Nat.repr 0 := by
  have hfound : bootGetResponse 2000 (sendMessage s (.eraseSector sector)) =
      (some m,
        { s with
          messageQueue := q
          sent := s.sent ++ [.eraseSector sector]
          awaits := s.awaits ++ [2000] }) := by
    exact bootGetResponse_found 2000 _ [] m q (by omega) hq (by simp) hm
  refine ⟨?_, ?_, rfl, rfl, rfl, rfl, rfl, rfl, rfl, rfl, rfl, rfl, ?_, rfl⟩
  · intro hst
    unfold bootEraseSector
    simp only [hfound]
    simp [hst]
  · intro hst
    unfold bootEraseSector
    simp only [hfound]
    simp [hst]
  · intro st hst
    obtain ⟨n, rfl⟩ : ∃ n, st = n + 10 := ⟨st - 10, by omega⟩
    rfl

/-- Witness for C7: erasing sector 5 with status byte 9 succeeds; with status
byte 1 it fails and the message names `FLASH_BUSY`. -/
theorem c7_witness :
    bootEraseSector 5 ⟨[⟨7, [9]⟩], [], [], false, "", [], []⟩ =
      (true, ⟨[], [], [], false, "", [.eraseSector 5], [2000]⟩)
    ∧ bootEraseSector 5 ⟨[⟨7, [1]⟩], [], [], false, "", [], []⟩ =
      (false,
        ⟨[], [], [], false, "Can't erase sector 5: FLASH_BUSY", [.eraseSector 5], [2000]⟩) := by
  constructor
  · exact (c7_bootEraseSector_status 5 ⟨[⟨7, [9]⟩], [], [], false, "", [], []⟩
      ⟨7, [9]⟩ [] rfl rfl).1 rfl
  · exact (c7_bootEraseSector_status 5 ⟨[⟨7, [1]⟩], [], [], false, "", [], []⟩
      ⟨7, [1]⟩ [] rfl rfl).2.1 (by decide)

/-- C8: `bootVerifyData` compares the 32-bit checksum in the response payload
against the locally computed checksum over the same data; a mismatch is an
explicit failure whose message carries both values, a match is a silent
success (the error string is untouched). -/
theorem c8_bootVerifyData_checksum (crc32fn : List Nat → Nat) (dt addr : Nat) (data : List Nat)
    (s : BPState) (m : Msg) (q : List Msg) (hdt : 0 < dt)
    (hq : s.messageQueue = m :: q) (hm : m.id = MSG_ID_BOOT_RESPONSE) :
    (wordAt m.data ≠ crc32fn data →
      bootVerifyData crc32fn dt addr data s =
        (false,
          { s with
            messageQueue := q
            sent := s.sent ++ [.verify addr data.length]
            awaits := s.awaits ++ [dt]
            errorString := "Image CRC check failed. Expected 0x" ++ hex4 (crc32fn data)
              ++ ", got 0x" ++ hex4 (wordAt m.data) }))
    ∧ (wordAt m.data = crc32fn data →
      bootVerifyData crc32fn dt addr data s =
        (true,
          { s with
            messageQueue := q
            sent := s.sent ++ [.verify addr data.length]
            awaits := s.awaits ++ [dt] })) := by
  have hfound : bootGetResponse dt (sendMessage s (.verify addr data.length)) =
      (some m,
        { s with
          messageQueue := q
          sent := s.sent ++ [.verify addr data.length]
          awaits := s.awaits ++ [dt] }) := by
    exact bootGetResponse_found dt _ [] m q hdt hq (by simp) hm
  constructor
  · intro hne
    unfold bootVerifyData
    simp only [hfound]
    simp [hne]
  · intro heq
    unfold bootVerifyData
    simp only [hfound]
    simp [heq]

/-- Witness for C8: remote checksum 6, local checksum 5: an explicit failure
whose message carries both values; remote 5, local 5: silent success. -/
theorem c8_witness :
    bootVerifyData (fun _ => 5) 10 0 [] ⟨[⟨7, [6, 0, 0, 0]⟩], [], [], false, "", [], []⟩ =
      (false,
        ⟨[], [], [], false, "Image CRC check failed. Expected 0x0005, got 0x0006",
          [.verify 0 0], [10]⟩)
    ∧ bootVerifyData (fun _ => 5) 10 0 [] ⟨[⟨7, [5, 0, 0, 0]⟩], [], [], false, "", [], []⟩ =
      (true, ⟨[], [], [], false, "", [.verify 0 0], [10]⟩) := by
  constructor
  · exact (c8_bootVerifyData_checksum (fun _ => 5) 10 0 []
      ⟨[⟨7, [6, 0, 0, 0]⟩], [], [], false, "", [], []⟩ ⟨7, [6, 0, 0, 0]⟩ []
      (by omega) rfl rfl).1 (by decide)
  · exact (c8_bootVerifyData_checksum (fun _ => 5) 10 0 []
      ⟨[⟨7, [5, 0, 0, 0]⟩], [], [], false, "", [], []⟩ ⟨7, [5, 0, 0, 0]⟩ []
      (by omega) rfl rfl).2 (by decide)

/-- C9: `msg_send` stamps the header crc with the checksum of the two id
bytes concatenated with the payload, emits a leading 0x00, the encoding of
`crc ‖ id ‖ payload`, and a single trailing 0x00 terminator, returning
`data_len`; when the encode step fails it returns -1 (and writes nothing). -/
theorem c9_msg_send_wire_format (crc16fn : List Nat → Nat)
    (cobsr_encode : List Nat → Option (List Nat)) (m : CMsg) :
    msg_calc_crc crc16fn m = crc16fn (bytes16 m.id ++ m.data)
    ∧ (∀ enc,
        cobsr_encode (bytes16 (msg_calc_crc crc16fn m) ++ bytes16 m.id ++ m.data) = some enc →
        msg_send crc16fn cobsr_encode m = ((m.data.length : Int), 0 :: (enc ++ [0])))
    ∧ (cobsr_encode (bytes16 (msg_calc_crc crc16fn m) ++ bytes16 m.id ++ m.data) = none →
        msg_send crc16fn cobsr_encode m = (-1, [])) := by
  refine ⟨rfl, ?_, ?_⟩
  · intro enc h
    unfold msg_send
    simp only [h]
  · intro h
    unfold msg_send
    simp only [h]

/-- Witness for C9: id 258 = bytes `[2, 1]`, payload `[7]`, checksum function
summing the bytes (crc = 10 = bytes `[10, 0]`), identity encoder: the wire is
`0x00 ‖ crc ‖ id ‖ payload ‖ 0x00` and the return value is `data_len = 1`. -/
theorem c9_witness :
    msg_send (fun l => l.foldl (fun a b => a + b) 0) (fun l => some l) ⟨258, [7]⟩ =
      (1, [0, 10, 0, 2, 1, 7, 0]) := by
  exact (c9_msg_send_wire_format (fun l => l.foldl (fun a b => a + b) 0)
    (fun l => some l) ⟨258, [7]⟩).2.1 [10, 0, 2, 1, 7] rfl

/-- C5: a cancellation request observed at a step boundary (the `STEP` macro)
terminates the pipeline with no further requests (the continuation never
runs, the sent trace is exactly the finished step's trace) and yields the
distinct cancelled outcome: return value `true` with the dialog's sticky
cancelled flag set and the error string untouched — distinguishable from a
failure (return value `false`) and from an uncancelled success (flag clear,
as the second conjunct shows for the boundary's no-cancellation case). -/
theorem c5_STEP_cancellation_boundary (f k : BPState → Bool × BPState) (s s₁ : BPState)
    (hf : f s = (true, s₁)) :
    ((wasCanceled s₁).1 = true →
      STEP f k s = (true, (wasCanceled s₁).2)
      ∧ (wasCanceled s₁).2.sent = s₁.sent
      ∧ (wasCanceled s₁).2.errorString = s₁.errorString
      ∧ (wasCanceled s₁).2.canceled = true)
    ∧ ((wasCanceled s₁).1 = false →
      STEP f k s = k (wasCanceled s₁).2
      ∧ (wasCanceled s₁).2.canceled = false) := by
  constructor
  · intro hc
    refine ⟨?_, rfl, rfl, ?_⟩
    · unfold STEP
      simp only [hf]
      simp [hc]
    · rw [(wasCanceled_fields s₁).1, hc]
  · intro hc
    refine ⟨?_, ?_⟩
    · unfold STEP
      simp only [hf]
      simp [hc]
    · rw [(wasCanceled_fields s₁).1, hc]

/-- Witness for C5: a step that succeeds, followed by a pending cancellation
request: the pipeline stops with outcome `true`, flag set, continuation not
run. -/
theorem c5_witness :
    STEP (fun s => (true, s)) (fun s => (false, s)) ⟨[], [], [true], false, "", [], []⟩ =
      (true, ⟨[], [], [], true, "", [], []⟩) := by
  exact ((c5_STEP_cancellation_boundary (fun s => (true, s)) (fun s => (false, s))
    ⟨[], [], [true], false, "", [], []⟩ ⟨[], [], [true], false, "", [], []⟩ rfl).1 rfl).1

/-- C6 counterexample: the claim says cancellation is never polled mid-step,
but `bootWriteData` polls `wasCanceled` after every chunk send inside a
single pipeline step.  Two identical initial states differing only in the
pending cancellation answer produce different behaviour inside the single
`bootWriteData` step: with a pending cancellation the step stops after one
of its two chunks (returning `true`); without it, both chunks are sent. -/
theorem c6_counterexample :
    bootWriteData 10 1 0 [0, 0] ⟨[], [], [true], false, "", [], []⟩ =
      (true, ⟨[], [], [], true, "", [.writeData 0 [0]], []⟩)
    ∧ (bootWriteData 10 1 0 [0, 0] ⟨[], [], [], false, "", [], []⟩).2.sent =
      [.writeData 0 [0], .writeData 1 [0]] := by
  exact ⟨rfl, rfl⟩

/-- C6 amended: cooperative cancellation is checked at the boundaries between
pipeline steps and, in addition, inside `bootWriteData` after each chunk
send (a pending cancellation makes the region write return `true` right
after the first chunk is sent, mid-step); the response wait itself,
`bootGetResponse`, never polls cancellation: it leaves `cancels` and
`canceled` untouched for every timeout and state. -/
theorem c6_cancellation_points (dt cs addr : Nat) (data : List Nat) (s : BPState) :
    (0 < chunksOf cs data → (s.canceled || s.cancels.headD false) = true →
      bootWriteData dt cs addr data s =
        (true,
          { s with
            sent := s.sent ++ [.writeData addr (midChunk data 0 cs)]
            canceled := true
            cancels := s.cancels.tail }))
    ∧ (∀ t : Nat, (bootGetResponse t s).2.cancels = s.cancels
        ∧ (bootGetResponse t s).2.canceled = s.canceled) := by
  constructor
  · intro hchunks hc
    simp only [bootWriteData]
    obtain ⟨n, hn⟩ : ∃ n, chunksOf cs data + min (chunksOf cs data) 10 = n + 1 :=
      ⟨chunksOf cs data + min (chunksOf cs data) 10 - 1, by omega⟩
    rw [hn, writeLoopAux]
    have hlt : 0 < chunksOf cs data + min (chunksOf cs data) 10 := by omega
    rw [if_pos hlt]
    unfold sendPhase
    rw [if_pos hchunks]
    simp only [bootWriteDataAsync, wasCanceled, sendMessage]
    rcases (Bool.or_eq_true _ _) ▸ hc with h | h
    · simp [h]
    · rw [List.headD_eq_head?] at h
      simp [h]
  · intro t
    unfold bootGetResponse
    exact bootGetResponseAux_cancels (pollIterations t) _

/-- Witness for C6's amended theorem: one pending cancellation request and a
one-chunk region: the write returns `true` right after its only chunk. -/
theorem c6_witness :
    bootWriteData 10 1 0 [5] ⟨[], [], [true], false, "", [], []⟩ =
      (true, ⟨[], [], [], true, "", [.writeData 0 [5]], []⟩) := by
  exact (c6_cancellation_points 10 1 0 [5] ⟨[], [], [true], false, "", [], []⟩).1
    (by decide) rfl

theorem sendPhase_send (cs addr : Nat) (data : List Nat) (chunks i offset : Nat) (s : BPState)
    (hi : i < chunks) (hc1 : s.cancels = []) (hc2 : s.canceled = false) :
    sendPhase cs addr data chunks i offset s =
      Sum.inr (offset + cs,
        { s with sent := s.sent ++ [.writeData (addr + offset) (midChunk data offset cs)] }) := by
  unfold sendPhase
  rw [if_pos hi]
  simp only [bootWriteDataAsync, sendMessage, wasCanceled]
  simp [hc1, hc2]

theorem sendPhase_skip (cs addr : Nat) (data : List Nat) (chunks i offset : Nat) (s : BPState)
    (hi : ¬ i < chunks) :
    sendPhase cs addr data chunks i offset s = Sum.inr (offset, s) := by
  unfold sendPhase
  rw [if_neg hi]

theorem ackPhase_skip (dt addr W i : Nat) (s : BPState) (hi : i < W) :
    ackPhase dt addr W i s = Sum.inr s := by
  unfold ackPhase
  rw [if_neg (by omega)]

theorem ackPhase_consume_ok (dt addr W i : Nat) (s : BPState) (m : Msg) (q : List Msg)
    (hi : W ≤ i) (hdt : 0 < dt) (hq : s.messageQueue = m :: q)
    (hm : m.id = MSG_ID_BOOT_RESPONSE) (hst : statusOf m = FLASH_COMPLETE) :
    ackPhase dt addr W i s =
      Sum.inr { s with messageQueue := q, awaits := s.awaits ++ [dt] } := by
  unfold ackPhase
  rw [if_pos hi, bootGetResponse_found dt s [] m q hdt hq (by simp) hm]
  simp [hst]

theorem ackPhase_consume_fail (dt addr W i : Nat) (s : BPState) (m : Msg) (q : List Msg)
    (hi : W ≤ i) (hdt : 0 < dt) (hq : s.messageQueue = m :: q)
    (hm : m.id = MSG_ID_BOOT_RESPONSE) (hst : statusOf m ≠ FLASH_COMPLETE) :
    ackPhase dt addr W i s =
      Sum.inl (false,
        { s with
          messageQueue := q
          awaits := s.awaits ++ [dt]
          errorString := "Can't write data at 0x" ++ hex8 addr ++ ": "
            ++ flashStatusStr (statusOf m) }) := by
  unfold ackPhase
  rw [if_pos hi, bootGetResponse_found dt s [] m q hdt hq (by simp) hm]
  simp [hst]

theorem chunkSendsAux_length (cs addr : Nat) (data : List Nat) (n offset : Nat) :
    (chunkSendsAux cs addr data n offset).length = n := by
  induction n generalizing offset with
  | zero => rfl
  | succ n ih => simp [chunkSendsAux, ih]

theorem chunkSendsAux_snoc (cs addr : Nat) (data : List Nat) (n offset : Nat) :
    chunkSendsAux cs addr data (n + 1) offset =
      chunkSendsAux cs addr data n offset
        ++ [.writeData (addr + (offset + n * cs)) (midChunk data (offset + n * cs) cs)] := by
  induction n generalizing offset with
  | zero => simp [chunkSendsAux]
  | succ n ih =>
    rw [chunkSendsAux, ih]
    rw [chunkSendsAux]
    simp only [List.cons_append]
    have : offset + cs + n * cs = offset + (n + 1) * cs := by ring
    rw [this]

theorem writeLoopAux_add (dt cs addr : Nat) (data : List Nat) (chunks W : Nat)
    (j k : Nat) :
    ∀ i offset s, writeLoopAux dt cs addr data chunks W (j + k) i offset s =
      (match writeLoopAux dt cs addr data chunks W j i offset s with
        | .ret b s => .ret b s
        | .cont i2 offset2 s2 => writeLoopAux dt cs addr data chunks W k i2 offset2 s2) := by
  induction j with
  | zero =>
    intro i offset s
    simp [writeLoopAux, Nat.zero_add]
  | succ j ih =>
    intro i offset s
    have hadd : j + 1 + k = (j + k) + 1 := by omega
    rw [hadd, writeLoopAux, writeLoopAux]
    by_cases hi : i < chunks + W
    · rw [if_pos hi, if_pos hi]
      cases hsp : sendPhase cs addr data chunks i offset s with
      | inl p =>
        rcases p with ⟨b, s2⟩
        rfl
      | inr p =>
        rcases p with ⟨offset2, s2⟩
        cases hap : ackPhase dt addr W i s2 with
        | inl p2 =>
          rcases p2 with ⟨b, s3⟩
          simp only [hap]
        | inr s3 =>
          simp only [hap]
          exact ih (i + 1) offset2 s3
    · rw [if_neg hi, if_neg hi]

/-- Number of acknowledgements consumed by the first `i` loop iterations of
`bootWriteData`: iteration `k` consumes one iff `k ≥ W`. -/
def consumedBy (W i : Nat) : Nat := i - min i W

theorem writeLoopAux_run (dt cs addr : Nat) (data : List Nat) (chunks W : Nat)
    (hdt : 0 < dt) :
    ∀ j i s, i + j ≤ chunks + W →
      (∀ x ∈ s.messageQueue.take (consumedBy W (i + j) - consumedBy W i),
        x.id = MSG_ID_BOOT_RESPONSE ∧ statusOf x = FLASH_COMPLETE) →
      consumedBy W (i + j) - consumedBy W i ≤ s.messageQueue.length →
      s.cancels = [] → s.canceled = false →
      writeLoopAux dt cs addr data chunks W j i (min i chunks * cs) s =
        .cont (i + j) (min (i + j) chunks * cs)
          { s with
            sent := s.sent ++ chunkSendsAux cs addr data
              (min (i + j) chunks - min i chunks) (min i chunks * cs)
            messageQueue := s.messageQueue.drop (consumedBy W (i + j) - consumedBy W i)
            awaits := s.awaits ++ List.replicate (consumedBy W (i + j) - consumedBy W i) dt } := by
  intro j
  induction j with
  | zero =>
    intro i s hij hq hlen hc1 hc2
    simp [writeLoopAux, chunkSendsAux]
  | succ j ih =>
    intro i s hij hq hlen hc1 hc2
    have hi : i < chunks + W := by omega
    rw [writeLoopAux, if_pos hi]
    by_cases hic : i < chunks
    · have h1 := sendPhase_send cs addr data chunks i (min i chunks * cs) s hic hc1 hc2
      by_cases hiW : i < W
      · have hcons : consumedBy W (i + 1) = consumedBy W i := by
          unfold consumedBy; omega
        simp only [h1, fun s2 => ackPhase_skip dt addr W i s2 hiW]
        have hoff : min i chunks * cs + cs = min (i + 1) chunks * cs := by
          have e1 : min i chunks = i := by omega
          have e2 : min (i + 1) chunks = i + 1 := by omega
          rw [e1, e2]; ring
        rw [hoff]
        rw [ih (i + 1)
          { s with sent := s.sent ++
              [Req.writeData (addr + min i chunks * cs) (midChunk data (min i chunks * cs) cs)] }
          (by omega)
          (by
            intro x hx
            apply hq
            have : consumedBy W (i + 1 + j) - consumedBy W (i + 1) =
                consumedBy W (i + (j + 1)) - consumedBy W i := by
              have e3 : i + 1 + j = i + (j + 1) := by omega
              rw [e3, hcons]
            rw [this] at hx
            exact hx)
          (by
            have : consumedBy W (i + 1 + j) - consumedBy W (i + 1) =
                consumedBy W (i + (j + 1)) - consumedBy W i := by
              have e3 : i + 1 + j = i + (j + 1) := by omega
              rw [e3, hcons]
            rw [this]
            exact hlen)
          hc1 hc2]
        have e3 : i + 1 + j = i + (j + 1) := by omega
        rw [e3, hcons]
        have e4 : min (i + (j + 1)) chunks - min i chunks =
            (min (i + (j + 1)) chunks - min (i + 1) chunks) + 1 := by omega
        rw [e4, chunkSendsAux]
        have e5 : min i chunks * cs + cs = min (i + 1) chunks * cs := hoff
        simp [e5, List.append_assoc]
      · have hW : W ≤ i := by omega
        have hdelta : 1 ≤ consumedBy W (i + (j + 1)) - consumedBy W i := by
          unfold consumedBy; omega
        cases hqe : s.messageQueue with
        | nil =>
          rw [hqe] at hlen
          simp at hlen
          omega
        | cons m q =>
          have hmgood : m.id = MSG_ID_BOOT_RESPONSE ∧ statusOf m = FLASH_COMPLETE := by
            apply hq
            rw [hqe]
            obtain ⟨d, hd⟩ : ∃ d, consumedBy W (i + (j + 1)) - consumedBy W i = d + 1 :=
              ⟨consumedBy W (i + (j + 1)) - consumedBy W i - 1, by omega⟩
            rw [hd]
            simp
          have h2 := ackPhase_consume_ok dt addr W i
            { s with sent := s.sent ++
                [.writeData (addr + min i chunks * cs) (midChunk data (min i chunks * cs) cs)] }
            m q hW hdt (by simpa using hqe) hmgood.1 hmgood.2
          simp only [h1, h2]
          have hoff : min i chunks * cs + cs = min (i + 1) chunks * cs := by
            have e1 : min i chunks = i := by omega
            have e2 : min (i + 1) chunks = i + 1 := by omega
            rw [e1, e2]; ring
          rw [hoff]
          rw [ih (i + 1)
            { s with
              sent := s.sent ++
                [Req.writeData (addr + min i chunks * cs) (midChunk data (min i chunks * cs) cs)]
              messageQueue := q
              awaits := s.awaits ++ [dt] }
            (by omega)
            (by
              intro x hx
              apply hq
              rw [hqe]
              obtain ⟨d, hd⟩ : ∃ d, consumedBy W (i + (j + 1)) - consumedBy W i = d + 1 :=
                ⟨consumedBy W (i + (j + 1)) - consumedBy W i - 1, by omega⟩
              rw [hd]
              simp only [List.take_succ_cons, List.mem_cons]
              right
              have : consumedBy W (i + 1 + j) - consumedBy W (i + 1) = d := by
                unfold consumedBy at hd ⊢
                omega
              rw [this] at hx
              simpa using hx)
            (by
              have hql : s.messageQueue.length = q.length + 1 := by
                rw [hqe]; simp
              have : consumedBy W (i + 1 + j) - consumedBy W (i + 1) =
                  consumedBy W (i + (j + 1)) - consumedBy W i - 1 := by
                unfold consumedBy; omega
              simp only [this]
              simp
              omega)
            hc1 hc2]
          have e3 : i + 1 + j = i + (j + 1) := by omega
          rw [e3]
          have e4 : min (i + (j + 1)) chunks - min i chunks =
              (min (i + (j + 1)) chunks - min (i + 1) chunks) + 1 := by omega
          rw [e4, chunkSendsAux]
          have hdel : consumedBy W (i + (j + 1)) - consumedBy W i =
              (consumedBy W (i + (j + 1)) - consumedBy W (i + 1)) + 1 := by
            unfold consumedBy; omega
          rw [hdel]
          simp [hoff, List.append_assoc, List.replicate_succ]
    · have h1 := sendPhase_skip cs addr data chunks i (min i chunks * cs) s hic
      have hminc : min i chunks = chunks := by omega
      by_cases hiW : i < W
      · have hcons : consumedBy W (i + 1) = consumedBy W i := by
          unfold consumedBy; omega
        simp only [h1, fun s2 => ackPhase_skip dt addr W i s2 hiW]
        have hoff : min i chunks * cs = min (i + 1) chunks * cs := by
          rw [hminc, show min (i + 1) chunks = chunks from by omega]
        rw [hoff]
        rw [ih (i + 1) _ (by omega)
          (by
            intro x hx
            apply hq
            have : consumedBy W (i + 1 + j) - consumedBy W (i + 1) =
                consumedBy W (i + (j + 1)) - consumedBy W i := by
              have e3 : i + 1 + j = i + (j + 1) := by omega
              rw [e3, hcons]
            rw [this] at hx
            exact hx)
          (by
            have : consumedBy W (i + 1 + j) - consumedBy W (i + 1) =
                consumedBy W (i + (j + 1)) - consumedBy W i := by
              have e3 : i + 1 + j = i + (j + 1) := by omega
              rw [e3, hcons]
            rw [this]
            exact hlen)
          hc1 hc2]
        have e3 : i + 1 + j = i + (j + 1) := by omega
        rw [e3, hcons]
        have e4 : min (i + (j + 1)) chunks - min i chunks =
            min (i + (j + 1)) chunks - min (i + 1) chunks := by omega
        rw [e4]
      · have hW : W ≤ i := by omega
        have hdelta : 1 ≤ consumedBy W (i + (j + 1)) - consumedBy W i := by
          unfold consumedBy; omega
        cases hqe : s.messageQueue with
        | nil =>
          rw [hqe] at hlen
          simp at hlen
          omega
        | cons m q =>
          have hmgood : m.id = MSG_ID_BOOT_RESPONSE ∧ statusOf m = FLASH_COMPLETE := by
            apply hq
            rw [hqe]
            obtain ⟨d, hd⟩ : ∃ d, consumedBy W (i + (j + 1)) - consumedBy W i = d + 1 :=
              ⟨consumedBy W (i + (j + 1)) - consumedBy W i - 1, by omega⟩
            rw [hd]
            simp
          have h2 := ackPhase_consume_ok dt addr W i s m q hW hdt hqe hmgood.1 hmgood.2
          simp only [h1, h2]
          have hoff : min i chunks * cs = min (i + 1) chunks * cs := by
            rw [hminc, show min (i + 1) chunks = chunks from by omega]
          rw [hoff]
          rw [ih (i + 1)
            { s with messageQueue := q, awaits := s.awaits ++ [dt] }
            (by omega)
            (by
              intro x hx
              apply hq
              rw [hqe]
              obtain ⟨d, hd⟩ : ∃ d, consumedBy W (i + (j + 1)) - consumedBy W i = d + 1 :=
                ⟨consumedBy W (i + (j + 1)) - consumedBy W i - 1, by omega⟩
              rw [hd]
              simp only [List.take_succ_cons, List.mem_cons]
              right
              have : consumedBy W (i + 1 + j) - consumedBy W (i + 1) = d := by
                unfold consumedBy at hd ⊢
                omega
              rw [this] at hx
              simpa using hx)
            (by
              have hql : s.messageQueue.length = q.length + 1 := by
                rw [hqe]; simp
              have : consumedBy W (i + 1 + j) - consumedBy W (i + 1) =
                  consumedBy W (i + (j + 1)) - consumedBy W i - 1 := by
                unfold consumedBy; omega
              simp only [this]
              simp
              omega)
            hc1 hc2]
          have e3 : i + 1 + j = i + (j + 1) := by omega
          rw [e3]
          have e4 : min (i + (j + 1)) chunks - min i chunks =
              min (i + (j + 1)) chunks - min (i + 1) chunks := by omega
          rw [e4]
          have hdel : consumedBy W (i + (j + 1)) - consumedBy W i =
              (consumedBy W (i + (j + 1)) - consumedBy W (i + 1)) + 1 := by
            unfold consumedBy; omega
          rw [hdel]
          simp [hoff, List.replicate_succ]

/-- C2: `bootWriteData` splits its region into `ceil(len / chunk_size)`
chunks with in-flight window `W = min(chunks, 10)` and iterates
`chunks + W` steps; in a fully successful run (every pending acknowledgement
`FLASH_COMPLETE`, no cancellation) the number of chunks sent equals the
number of responses consumed equals the chunk count, and after every step
prefix `j` the outstanding unacknowledged writes `min j chunks` minus
`consumedBy W j` never exceed `W`. -/
theorem c2_bootWriteData_pipeline (dt cs addr : Nat) (data : List Nat) (s : BPState)
    (hdt : 0 < dt)
    (hq : ∀ x ∈ s.messageQueue, x.id = MSG_ID_BOOT_RESPONSE ∧ statusOf x = FLASH_COMPLETE)
    (hlen : chunksOf cs data ≤ s.messageQueue.length)
    (hc1 : s.cancels = []) (hc2 : s.canceled = false) :
    bootWriteData dt cs addr data s =
      (true,
        { s with
          sent := s.sent ++ chunkSends cs addr data
          messageQueue := s.messageQueue.drop (chunksOf cs data)
          awaits := s.awaits ++ List.replicate (chunksOf cs data) dt })
    ∧ (chunkSends cs addr data).length = chunksOf cs data
    ∧ (∀ j, j ≤ chunksOf cs data + min (chunksOf cs data) 10 →
        writeLoopAux dt cs addr data (chunksOf cs data) (min (chunksOf cs data) 10) j 0 0 s =
          .cont j (min j (chunksOf cs data) * cs)
            { s with
              sent := s.sent ++ chunkSendsAux cs addr data (min j (chunksOf cs data)) 0
              messageQueue :=
                s.messageQueue.drop (consumedBy (min (chunksOf cs data) 10) j)
              awaits :=
                s.awaits ++ List.replicate (consumedBy (min (chunksOf cs data) 10) j) dt }
        ∧ min j (chunksOf cs data) - consumedBy (min (chunksOf cs data) 10) j
            ≤ min (chunksOf cs data) 10) := by
  have hloopstates : ∀ j, j ≤ chunksOf cs data + min (chunksOf cs data) 10 →
      writeLoopAux dt cs addr data (chunksOf cs data) (min (chunksOf cs data) 10) j 0 0 s =
        .cont j (min j (chunksOf cs data) * cs)
          { s with
            sent := s.sent ++ chunkSendsAux cs addr data (min j (chunksOf cs data)) 0
            messageQueue := s.messageQueue.drop (consumedBy (min (chunksOf cs data) 10) j)
            awaits := s.awaits ++ List.replicate (consumedBy (min (chunksOf cs data) 10) j) dt } := by
    intro j hj
    have hrun := writeLoopAux_run dt cs addr data (chunksOf cs data)
      (min (chunksOf cs data) 10) hdt j 0 s (by omega)
      (fun x hx => hq x (List.take_subset _ _ hx))
      (by unfold consumedBy; omega)
      hc1 hc2
    have h0 : min 0 (chunksOf cs data) * cs = 0 := by simp
    rw [h0] at hrun
    rw [hrun]
    have e1 : 0 + j = j := by omega
    have e2 : consumedBy (min (chunksOf cs data) 10) 0 = 0 := by unfold consumedBy; omega
    have e3 : min 0 (chunksOf cs data) = 0 := by omega
    rw [e1, e2, e3]
    simp
  refine ⟨?_, chunkSendsAux_length cs addr data (chunksOf cs data) 0, ?_⟩
  · have hfull := hloopstates (chunksOf cs data + min (chunksOf cs data) 10) (by omega)
    simp only [bootWriteData]
    rw [hfull]
    have e4 : min (chunksOf cs data + min (chunksOf cs data) 10) (chunksOf cs data) =
        chunksOf cs data := by omega
    have e5 : consumedBy (min (chunksOf cs data) 10)
        (chunksOf cs data + min (chunksOf cs data) 10) = chunksOf cs data := by
      unfold consumedBy; omega
    rw [e4, e5]
    rfl
  · intro j hj
    refine ⟨hloopstates j hj, ?_⟩
    unfold consumedBy
    omega

/-- Witness for C2: a 25-byte region with chunk size 1 (25 chunks, window
10) against a queue of 25 `FLASH_COMPLETE` acknowledgements: the write
succeeds, 25 chunks are sent, 25 responses are consumed. -/
theorem c2_witness :
    bootWriteData 10 1 4096 (List.replicate 25 0)
        ⟨List.replicate 25 ⟨7, [9]⟩, [], [], false, "", [], []⟩ =
      (true,
        ⟨[], [], [], false, "", chunkSends 1 4096 (List.replicate 25 0),
          List.replicate 25 10⟩)
    ∧ (chunkSends 1 4096 (List.replicate 25 0)).length = 25 := by
  have h := c2_bootWriteData_pipeline 10 1 4096 (List.replicate 25 0)
    ⟨List.replicate 25 ⟨7, [9]⟩, [], [], false, "", [], []⟩
    (by omega) (by decide) (by decide) rfl rfl
  exact ⟨h.1, h.2.1⟩

/-- C4 counterexample: the claim says the failure message reports the address
of the offending (failing) chunk; the code interpolates `addr`, the base
address of the whole region.  With base address 0x1000, two one-byte chunks
and the second acknowledgement failing with `FLASH_BUSY`, the offending
chunk lives at 0x1001 but the message says 0x00001000, not 0x00001001. -/
theorem c4_counterexample :
    bootWriteData 10 1 4096 [0, 0] ⟨[⟨7, [9]⟩, ⟨7, [1]⟩], [], [], false, "", [], []⟩ =
      (false,
        ⟨[], [], [], false, "Can't write data at 0x00001000: FLASH_BUSY",
          [.writeData 4096 [0], .writeData 4097 [0]], [10, 10]⟩)
    ∧ hex8 (4096 + 1) = "00001001"
    ∧ ("Can't write data at 0x00001000: FLASH_BUSY" : String) ≠
      "Can't write data at 0x" ++ hex8 (4096 + 1) ++ ": " ++ flashStatusStr 1 := by
  refine ⟨by decide, by decide, by decide⟩

/-- C4 amended: when the acknowledgement consumed for the `m`-th chunk (the
first `m` being `FLASH_COMPLETE`) carries another status, `bootWriteData`
aborts the region write returning `false`; its error message reports the
base address of the region (the `addr` argument, not the failing chunk's
own address) with the decoded status name; exactly `m + 1` responses are
consumed (the remaining queue is untouched, so no later in-flight
acknowledgement is consumed) and the chunks sent up to the failing step are
`min (W + m + 1) chunks`. -/
theorem c4_write_failure_aborts (dt cs addr : Nat) (data : List Nat) (s : BPState)
    (good : List Msg) (bad : Msg) (rest : List Msg)
    (hdt : 0 < dt)
    (hqe : s.messageQueue = good ++ bad :: rest)
    (hgood : ∀ x ∈ good, x.id = MSG_ID_BOOT_RESPONSE ∧ statusOf x = FLASH_COMPLETE)
    (hbid : bad.id = MSG_ID_BOOT_RESPONSE) (hbst : statusOf bad ≠ FLASH_COMPLETE)
    (hm : good.length < chunksOf cs data)
    (hc1 : s.cancels = []) (hc2 : s.canceled = false) :
    bootWriteData dt cs addr data s =
      (false,
        { s with
          sent := s.sent ++ chunkSendsAux cs addr data
            (min (min (chunksOf cs data) 10 + good.length + 1) (chunksOf cs data)) 0
          messageQueue := rest
          awaits := s.awaits ++ List.replicate (good.length + 1) dt
          errorString := "Can't write data at 0x" ++ hex8 addr ++ ": "
            ++ flashStatusStr (statusOf bad) }) := by
  have hWle : min (chunksOf cs data) 10 ≤ chunksOf cs data := by omega
  simp only [bootWriteData]
  rw [show chunksOf cs data + min (chunksOf cs data) 10 =
      (min (chunksOf cs data) 10 + good.length) + (chunksOf cs data - good.length) from by omega]
  rw [writeLoopAux_add]
  have hrun := writeLoopAux_run dt cs addr data (chunksOf cs data)
    (min (chunksOf cs data) 10) hdt (min (chunksOf cs data) 10 + good.length) 0 s
    (by omega)
    (by
      intro x hx
      apply hgood
      have e1 : consumedBy (min (chunksOf cs data) 10) (0 + (min (chunksOf cs data) 10 + good.length))
          - consumedBy (min (chunksOf cs data) 10) 0 = good.length := by
        unfold consumedBy; omega
      rw [e1, hqe] at hx
      have := List.take_left good (bad :: rest)
      rw [this] at hx
      exact hx)
    (by
      have e1 : consumedBy (min (chunksOf cs data) 10) (0 + (min (chunksOf cs data) 10 + good.length))
          - consumedBy (min (chunksOf cs data) 10) 0 = good.length := by
        unfold consumedBy; omega
      rw [e1, hqe]
      simp)
    hc1 hc2
  have h0 : min 0 (chunksOf cs data) * cs = 0 := by simp
  rw [h0] at hrun
  simp only [hrun]
  have e1 : consumedBy (min (chunksOf cs data) 10) (0 + (min (chunksOf cs data) 10 + good.length))
      - consumedBy (min (chunksOf cs data) 10) 0 = good.length := by
    unfold consumedBy; omega
  have e2 : (0 : Nat) + (min (chunksOf cs data) 10 + good.length) =
      min (chunksOf cs data) 10 + good.length := by omega
  have e3 : min 0 (chunksOf cs data) = 0 := by omega
  rw [e1, e2, e3, hqe]
  rw [List.drop_left good (bad :: rest)]
  simp only [Nat.sub_zero]
  -- one more iteration of the loop: the failing acknowledgement
  rw [show chunksOf cs data - good.length = (chunksOf cs data - good.length - 1) + 1 from by omega]
  rw [writeLoopAux]
  rw [if_pos (show min (chunksOf cs data) 10 + good.length <
      chunksOf cs data + min (chunksOf cs data) 10 from by omega)]
  by_cases hsend : min (chunksOf cs data) 10 + good.length < chunksOf cs data
  · have e4 : min (min (chunksOf cs data) 10 + good.length) (chunksOf cs data) =
        min (chunksOf cs data) 10 + good.length := by omega
    rw [e4]
    rw [sendPhase_send cs addr data (chunksOf cs data)
      (min (chunksOf cs data) 10 + good.length)
      ((min (chunksOf cs data) 10 + good.length) * cs) _ hsend (by simp [hc1]) (by simp [hc2])]
    have hack := ackPhase_consume_fail dt addr (min (chunksOf cs data) 10)
      (min (chunksOf cs data) 10 + good.length)
      { s with
        messageQueue := bad :: rest
        sent := (s.sent ++ chunkSendsAux cs addr data (min (chunksOf cs data) 10 + good.length) 0)
          ++ [Req.writeData (addr + (min (chunksOf cs data) 10 + good.length) * cs)
              (midChunk data ((min (chunksOf cs data) 10 + good.length) * cs) cs)]
        awaits := s.awaits ++ List.replicate good.length dt }
      bad rest (by omega) hdt rfl hbid hbst
    simp only [hack]
    have e5 : min (min (chunksOf cs data) 10 + good.length + 1) (chunksOf cs data) =
        min (chunksOf cs data) 10 + good.length + 1 := by omega
    rw [e5, chunkSendsAux_snoc]
    simp [List.append_assoc, List.replicate_succ']
  · have e4 : min (min (chunksOf cs data) 10 + good.length) (chunksOf cs data) =
        chunksOf cs data := by omega
    rw [e4]
    rw [sendPhase_skip cs addr data (chunksOf cs data)
      (min (chunksOf cs data) 10 + good.length) (chunksOf cs data * cs) _ hsend]
    have hack := ackPhase_consume_fail dt addr (min (chunksOf cs data) 10)
      (min (chunksOf cs data) 10 + good.length)
      { s with
        messageQueue := bad :: rest
        sent := s.sent ++ chunkSendsAux cs addr data (chunksOf cs data) 0
        awaits := s.awaits ++ List.replicate good.length dt }
      bad rest (by omega) hdt rfl hbid hbst
    simp only [hack]
    have e5 : min (min (chunksOf cs data) 10 + good.length + 1) (chunksOf cs data) =
        chunksOf cs data := by omega
    rw [e5]
    simp [List.replicate_succ']

/-- Witness for C4's amended theorem: three one-byte chunks, first
acknowledgement `FLASH_COMPLETE`, second `FLASH_BUSY`: the write fails, the
message carries the region base address 0x00001000 and `FLASH_BUSY`, exactly
two of the three acknowledgements are consumed. -/
theorem c4_witness :
    bootWriteData 10 1 4096 [0, 0, 0]
        ⟨[⟨7, [9]⟩, ⟨7, [1]⟩], [], [], false, "", [], []⟩ =
      (false,
        ⟨[], [], [], false, "Can't write data at 0x00001000: FLASH_BUSY",
          [.writeData 4096 [0], .writeData 4097 [0], .writeData 4098 [0]], [10, 10]⟩) := by
  exact c4_write_failure_aborts 10 1 4096 [0, 0, 0]
    ⟨[⟨7, [9]⟩, ⟨7, [1]⟩], [], [], false, "", [], []⟩
    [⟨7, [9]⟩] ⟨7, [1]⟩ [] (by omega) rfl (by decide) rfl (by decide) (by decide) rfl rfl

/-! ### Preservation lemmas used for the enter-retry and commit-ordering claims -/

theorem bootGetResponseAux_sent (n : Nat) (s : BPState) :
    (bootGetResponseAux n s).2.sent = s.sent := by
  induction n generalizing s with
  | zero => simp [bootGetResponseAux]
  | succ n ih =>
    rw [bootGetResponseAux]
    cases hd : drainQueue s.messageQueue with
    | mk o q =>
      cases o with
      | some m => simp
      | none => simpa using ih _

theorem bootGetResponse_fields (t : Nat) (s : BPState) :
    (bootGetResponse t s).2.sent = s.sent
    ∧ (bootGetResponse t s).2.cancels = s.cancels
    ∧ (bootGetResponse t s).2.canceled = s.canceled := by
  unfold bootGetResponse
  refine ⟨?_, ?_, ?_⟩
  · exact bootGetResponseAux_sent _ _
  · exact (bootGetResponseAux_cancels _ _).1
  · exact (bootGetResponseAux_cancels _ _).2

theorem wasCanceled_noc (s : BPState) (hc1 : s.cancels = []) (hc2 : s.canceled = false) :
    wasCanceled s = (false, s) := by
  cases s
  simp only at hc1 hc2
  subst hc1
  subst hc2
  rfl

theorem bootEnter_fields (dt : Nat) (s : BPState) :
    (bootEnter dt s).2.sent = s.sent ++ enterAttemptReqs
    ∧ (bootEnter dt s).2.cancels = s.cancels
    ∧ (bootEnter dt s).2.canceled = s.canceled := by
  simp only [bootEnter, bootResetHack]
  split
  next s2 heq =>
    have hf := bootGetResponse_fields dt
      (sendMessage (sendMessage s (.shellFromPc "\x03\nreset\n")) (.bootEnter 0xB00710AD))
    rw [heq] at hf
    simpa [sendMessage, enterAttemptReqs] using hf
  next res s2 heq =>
    have hf := bootGetResponse_fields dt
      (sendMessage (sendMessage s (.shellFromPc "\x03\nreset\n")) (.bootEnter 0xB00710AD))
    rw [heq] at hf
    by_cases hst : statusOf res = 1
    · simp only [if_neg (show ¬ statusOf res ≠ 1 by simp [hst])]
      simpa [sendMessage, enterAttemptReqs] using hf
    · simp only [if_pos hst]
      simpa [sendMessage, enterAttemptReqs] using hf

theorem bootExit_fields (dt : Nat) (s : BPState) :
    (bootExit dt s).2.sent = s.sent ++ [Req.bootExit]
    ∧ (bootExit dt s).2.cancels = s.cancels
    ∧ (bootExit dt s).2.canceled = s.canceled := by
  simp only [bootExit]
  split
  next s2 heq =>
    have hf := bootGetResponse_fields dt (sendMessage s .bootExit)
    rw [heq] at hf
    simpa [sendMessage] using hf
  next res s2 heq =>
    have hf := bootGetResponse_fields dt (sendMessage s .bootExit)
    rw [heq] at hf
    by_cases hst : statusOf res = 1
    · simp only [if_neg (show ¬ statusOf res ≠ 1 by simp [hst])]
      simpa [sendMessage] using hf
    · simp only [if_pos hst]
      simpa [sendMessage] using hf

theorem bootEraseSector_fields (sector : Nat) (s : BPState) :
    (bootEraseSector sector s).2.sent = s.sent ++ [Req.eraseSector sector]
    ∧ (bootEraseSector sector s).2.cancels = s.cancels
    ∧ (bootEraseSector sector s).2.canceled = s.canceled := by
  simp only [bootEraseSector]
  split
  next s2 heq =>
    have hf := bootGetResponse_fields 2000 (sendMessage s (.eraseSector sector))
    rw [heq] at hf
    simpa [sendMessage] using hf
  next res s2 heq =>
    have hf := bootGetResponse_fields 2000 (sendMessage s (.eraseSector sector))
    rw [heq] at hf
    by_cases hst : statusOf res = FLASH_COMPLETE
    · simp only [if_neg (show ¬ statusOf res ≠ FLASH_COMPLETE by simp [hst])]
      simpa [sendMessage] using hf
    · simp only [if_pos hst]
      simpa [sendMessage] using hf

theorem bootVerifyData_fields (crc32fn : List Nat → Nat) (dt addr : Nat) (data : List Nat)
    (s : BPState) :
    (bootVerifyData crc32fn dt addr data s).2.sent = s.sent ++ [Req.verify addr data.length]
    ∧ (bootVerifyData crc32fn dt addr data s).2.cancels = s.cancels
    ∧ (bootVerifyData crc32fn dt addr data s).2.canceled = s.canceled := by
  simp only [bootVerifyData]
  split
  next s2 heq =>
    have hf := bootGetResponse_fields dt (sendMessage s (.verify addr data.length))
    rw [heq] at hf
    simpa [sendMessage] using hf
  next res s2 heq =>
    have hf := bootGetResponse_fields dt (sendMessage s (.verify addr data.length))
    rw [heq] at hf
    by_cases hst : wordAt res.data = crc32fn data
    · simp only [if_neg (show ¬ wordAt res.data ≠ crc32fn data by simp [hst])]
      simpa [sendMessage] using hf
    · simp only [if_pos hst]
      simpa [sendMessage] using hf

theorem drainQueue_mem (l : List Msg) :
    (∀ m, (drainQueue l).1 = some m → m ∈ l ∧ m.id = MSG_ID_BOOT_RESPONSE)
    ∧ (∀ x ∈ (drainQueue l).2, x ∈ l) := by
  induction l with
  | nil => simp [drainQueue]
  | cons a l ih =>
    by_cases h : a.id = MSG_ID_BOOT_RESPONSE
    · constructor
      · intro m hm
        rw [drainQueue_cons_resp a l h] at hm
        simp at hm
        subst hm
        exact ⟨by simp, h⟩
      · intro x hx
        rw [drainQueue_cons_resp a l h] at hx
        simp [hx]
    · have he : drainQueue (a :: l) = drainQueue l := by
        simp [drainQueue, h]
      rw [he]
      constructor
      · intro m hm
        have := ih.1 m hm
        exact ⟨by simp [this.1], this.2⟩
      · intro x hx
        have := ih.2 x hx
        simp [this]

theorem bootGetResponseAux_avail (n : Nat) (s : BPState) :
    (∀ m, (bootGetResponseAux n s).1 = some m →
      m ∈ availMsgs s ∧ m.id = MSG_ID_BOOT_RESPONSE)
    ∧ (∀ x ∈ availMsgs (bootGetResponseAux n s).2, x ∈ availMsgs s) := by
  induction n generalizing s with
  | zero => simp [bootGetResponseAux, availMsgs]
  | succ n ih =>
    rw [bootGetResponseAux]
    cases hd : drainQueue s.messageQueue with
    | mk o q =>
      cases o with
      | some m =>
        have hdm := drainQueue_mem s.messageQueue
        rw [hd] at hdm
        constructor
        · intro m2 hm2
          have hm2b : m = m2 := by simpa using hm2
          subst hm2b
          have hh := hdm.1 m rfl
          exact ⟨by simp [availMsgs, hh.1], hh.2⟩
        · intro x hx
          simp [availMsgs] at hx ⊢
          rcases hx with hx | hx
          · exact Or.inl (hdm.2 x hx)
          · exact Or.inr hx
      | none =>
        have hsub : ∀ x ∈ availMsgs
            { s with messageQueue := s.arrivals.headD [], arrivals := s.arrivals.tail },
            x ∈ availMsgs s := by
          intro x hx
          cases harr : s.arrivals with
          | nil => simp [availMsgs, harr] at hx
          | cons b bs =>
            simp [availMsgs, harr] at hx ⊢
            tauto
        constructor
        · intro m hm
          have := (ih _).1 m hm
          exact ⟨hsub m this.1, this.2⟩
        · intro x hx
          exact hsub x ((ih _).2 x hx)

theorem bootGetResponse_avail (t : Nat) (s : BPState) :
    (∀ m, (bootGetResponse t s).1 = some m →
      m ∈ availMsgs s ∧ m.id = MSG_ID_BOOT_RESPONSE)
    ∧ (∀ x ∈ availMsgs (bootGetResponse t s).2, x ∈ availMsgs s) := by
  unfold bootGetResponse
  have h := bootGetResponseAux_avail (pollIterations t) { s with awaits := s.awaits ++ [t] }
  simpa [availMsgs] using h

theorem bootEnter_fail (dt : Nat) (s : BPState)
    (h : ∀ x ∈ availMsgs s, ¬(x.id = MSG_ID_BOOT_RESPONSE ∧ statusOf x = 1)) :
    (bootEnter dt s).1 = false
    ∧ (∀ x ∈ availMsgs (bootEnter dt s).2, x ∈ availMsgs s) := by
  simp only [bootEnter, bootResetHack]
  split
  next s2 heq =>
    have hav := bootGetResponse_avail dt
      (sendMessage (sendMessage s (.shellFromPc "\x03\nreset\n")) (.bootEnter 0xB00710AD))
    rw [heq] at hav
    constructor
    · rfl
    · intro x hx
      simpa [availMsgs, sendMessage] using hav.2 x (by simpa [availMsgs, sendMessage] using hx)
  next res s2 heq =>
    have hav := bootGetResponse_avail dt
      (sendMessage (sendMessage s (.shellFromPc "\x03\nreset\n")) (.bootEnter 0xB00710AD))
    rw [heq] at hav
    have hres := hav.1 res rfl
    have hres2 : res ∈ availMsgs s := by
      simpa [availMsgs, sendMessage] using hres.1
    have hst : statusOf res ≠ 1 := by
      intro hcon
      exact h res hres2 ⟨hres.2, hcon⟩
    rw [if_pos hst]
    constructor
    · rfl
    · intro x hx
      simp [availMsgs] at hx
      exact (by simpa [availMsgs, sendMessage] using hav.2 x (by simpa [availMsgs] using hx))

theorem enterReqs_succ (k : Nat) : enterReqs (k + 1) = enterAttemptReqs ++ enterReqs k := by
  simp [enterReqs, List.replicate_succ]

theorem enterLoop_all_fail (dt : Nat) : ∀ fuel (s : BPState),
    (∀ x ∈ availMsgs s, ¬(x.id = MSG_ID_BOOT_RESPONSE ∧ statusOf x = 1)) →
    s.cancels = [] → s.canceled = false →
    ∃ s2, enterLoop dt fuel s = .done false s2
      ∧ s2.sent = s.sent ++ enterReqs fuel
      ∧ s2.cancels = [] ∧ s2.canceled = false := by
  intro fuel
  induction fuel with
  | zero =>
    intro s h hc1 hc2
    exact ⟨s, rfl, by simp [enterReqs], hc1, hc2⟩
  | succ fuel ih =>
    intro s h hc1 hc2
    cases hbe : bootEnter dt s with
    | mk ok s1 =>
      have hff := bootEnter_fields dt s
      rw [hbe] at hff
      have hfail := bootEnter_fail dt s h
      rw [hbe] at hfail
      have hok : ok = false := hfail.1
      subst hok
      have hc1b : s1.cancels = [] := by rw [hff.2.1, hc1]
      have hc2b : s1.canceled = false := by rw [hff.2.2, hc2]
      rw [enterLoop]
      simp only [hbe]
      rw [wasCanceled_noc s1 hc1b hc2b]
      simp only [Bool.false_eq_true, if_false]
      obtain ⟨s2, he, hsent, hcc1, hcc2⟩ := ih s1
        (fun x hx => h x (hfail.2 x hx)) hc1b hc2b
      exact ⟨s2, he, by rw [hsent, hff.1, enterReqs_succ, List.append_assoc], hcc1, hcc2⟩

theorem bootEnter_step (dt : Nat) (s : BPState) (m : Msg) (q : List Msg) (hdt : 0 < dt)
    (hq : s.messageQueue = m :: q) (hm : m.id = MSG_ID_BOOT_RESPONSE) :
    (statusOf m = 1 →
      bootEnter dt s = (true,
        { s with
          messageQueue := q
          sent := s.sent ++ enterAttemptReqs
          awaits := s.awaits ++ [dt] }))
    ∧ (statusOf m ≠ 1 →
      bootEnter dt s = (false,
        { s with
          messageQueue := q
          sent := s.sent ++ enterAttemptReqs
          awaits := s.awaits ++ [dt]
          errorString := "Can't enter bootloader: " ++ Nat.repr (statusOf m) })) := by
  have hfound : bootGetResponse dt
      (sendMessage (sendMessage s (.shellFromPc "\x03\nreset\n")) (.bootEnter 0xB00710AD)) =
      (some m,
        { s with
          messageQueue := q
          sent := s.sent ++ enterAttemptReqs
          awaits := s.awaits ++ [dt] }) := by
    have := bootGetResponse_found dt
      (sendMessage (sendMessage s (.shellFromPc "\x03\nreset\n")) (.bootEnter 0xB00710AD))
      [] m q hdt (by simpa [sendMessage] using hq) (by simp) hm
    simpa [sendMessage, enterAttemptReqs, List.append_assoc] using this
  constructor
  · intro hst
    simp only [bootEnter, bootResetHack, hfound]
    simp [hst]
  · intro hst
    simp only [bootEnter, bootResetHack, hfound]
    simp [hst]

theorem enterLoop_succeeds (dt : Nat) (hdt : 0 < dt) : ∀ fuel (s : BPState) fails good rest,
    s.cancels = [] → s.canceled = false →
    s.messageQueue = fails ++ good :: rest →
    (∀ x ∈ fails, x.id = MSG_ID_BOOT_RESPONSE ∧ statusOf x ≠ 1) →
    good.id = MSG_ID_BOOT_RESPONSE → statusOf good = 1 →
    fails.length + 1 ≤ fuel →
    ∃ s2, enterLoop dt fuel s = .done true s2
      ∧ s2.messageQueue = rest
      ∧ s2.sent = s.sent ++ enterReqs (fails.length + 1)
      ∧ s2.awaits = s.awaits ++ List.replicate (fails.length + 1) dt
      ∧ s2.cancels = [] ∧ s2.canceled = false := by
  intro fuel
  induction fuel with
  | zero =>
    intro s fails good rest hc1 hc2 hq hfails hgid hgst hlen
    omega
  | succ fuel ih =>
    intro s fails good rest hc1 hc2 hq hfails hgid hgst hlen
    cases fails with
    | nil =>
      have hstep := (bootEnter_step dt s good rest hdt (by simpa using hq) hgid).1 hgst
      rw [enterLoop]
      simp only [hstep]
      rw [wasCanceled_noc _ (by simpa using hc1) (by simpa using hc2)]
      refine ⟨{ s with
          messageQueue := rest
          sent := s.sent ++ enterAttemptReqs
          awaits := s.awaits ++ [dt] }, rfl, rfl, ?_, ?_, by simpa using hc1,
        by simpa using hc2⟩
      · simp [enterReqs, enterAttemptReqs]
      · simp
    | cons f0 fails2 =>
      have hf0 := hfails f0 (by simp)
      have hstep := (bootEnter_step dt s f0 (fails2 ++ good :: rest) hdt
        (by simpa using hq) hf0.1).2 hf0.2
      rw [enterLoop]
      simp only [hstep]
      rw [wasCanceled_noc _ (by simpa using hc1) (by simpa using hc2)]
      simp only [Bool.false_eq_true, if_false]
      obtain ⟨s2, he, hmq, hsent, haw, hcc1, hcc2⟩ := ih
        { s with
          messageQueue := fails2 ++ good :: rest
          errorString := "Can't enter bootloader: " ++ Nat.repr (statusOf f0)
          sent := s.sent ++ enterAttemptReqs
          awaits := s.awaits ++ [dt] }
        fails2 good rest
        (by simpa using hc1) (by simpa using hc2) rfl
        (fun x hx => hfails x (by simp [hx])) hgid hgst (by simpa using hlen)
      refine ⟨s2, he, hmq, ?_, ?_, hcc1, hcc2⟩
      · rw [hsent]
        simp only [List.length_cons]
        rw [enterReqs_succ (fails2.length + 1)]
        simp [List.append_assoc]
      · rw [haw]
        simp [List.replicate_succ]

/-- State carried by a `sendPhase` outcome. -/
def sendState : Sum (Bool × BPState) (Nat × BPState) → BPState
  | .inl p => p.2
  | .inr p => p.2

/-- State carried by an `ackPhase` outcome. -/
def ackState : Sum (Bool × BPState) BPState → BPState
  | .inl p => p.2
  | .inr s => s

/-- State carried by a `writeLoopAux` outcome. -/
def woState : WriteOut → BPState
  | .ret _ s => s
  | .cont _ _ s => s

theorem countEnter_append (a b : List Req) :
    countEnter (a ++ b) = countEnter a + countEnter b := by
  simp [countEnter, List.countP_append]

theorem countEnter_enterReqs (k : Nat) : countEnter (enterReqs k) = k := by
  induction k with
  | zero => rfl
  | succ k ih =>
    rw [enterReqs_succ, countEnter_append, ih]
    have h1 : countEnter enterAttemptReqs = 1 := rfl
    rw [h1]
    omega

theorem sendPhase_sent (cs addr : Nat) (data : List Nat) (chunks i offset : Nat) (s : BPState) :
    ∃ l, (sendState (sendPhase cs addr data chunks i offset s)).sent = s.sent ++ l
      ∧ countEnter l = 0 := by
  by_cases hi : i < chunks
  · refine ⟨[.writeData (addr + offset) (midChunk data offset cs)], ?_, by rfl⟩
    simp only [sendPhase, if_pos hi, bootWriteDataAsync, sendMessage]
    cases hw : wasCanceled
        { s with sent := s.sent ++ [.writeData (addr + offset) (midChunk data offset cs)] } with
    | mk c s2 =>
      have hf := wasCanceled_fields
        { s with sent := s.sent ++ [.writeData (addr + offset) (midChunk data offset cs)] }
      rw [hw] at hf
      cases c
      · simpa [sendState] using hf.2.1
      · simpa [sendState] using hf.2.1
  · exact ⟨[], by simp [sendPhase, if_neg hi, sendState], rfl⟩

theorem ackPhase_state_fields (dt addr W i : Nat) (s : BPState) :
    (ackState (ackPhase dt addr W i s)).sent = s.sent
    ∧ (ackState (ackPhase dt addr W i s)).cancels = s.cancels
    ∧ (ackState (ackPhase dt addr W i s)).canceled = s.canceled := by
  unfold ackPhase
  by_cases hi : W ≤ i
  · simp only [if_pos hi]
    cases hg : bootGetResponse dt s with
    | mk o s2 =>
      have hf := bootGetResponse_fields dt s
      rw [hg] at hf
      cases o with
      | none => simpa [ackState] using hf
      | some res =>
        by_cases hst : statusOf res = FLASH_COMPLETE
        · simp only [if_neg (show ¬ statusOf res ≠ FLASH_COMPLETE by simp [hst])]
          simpa [ackState] using hf
        · simp only [if_pos hst]
          simpa [ackState] using hf
  · simp [if_neg hi, ackState]

theorem writeLoopAux_countEnter (dt cs addr : Nat) (data : List Nat) (chunks W : Nat) :
    ∀ fuel i offset s,
    countEnter ((woState (writeLoopAux dt cs addr data chunks W fuel i offset s)).sent) =
      countEnter s.sent := by
  intro fuel
  induction fuel with
  | zero => intro i offset s; simp [writeLoopAux, woState]
  | succ fuel ih =>
    intro i offset s
    rw [writeLoopAux]
    by_cases hi : i < chunks + W
    · rw [if_pos hi]
      obtain ⟨l, hl, hcl⟩ := sendPhase_sent cs addr data chunks i offset s
      cases hsp : sendPhase cs addr data chunks i offset s with
      | inl p =>
        rcases p with ⟨b, s2⟩
        rw [hsp] at hl
        simp only [sendState] at hl
        simp only [woState]
        rw [hl, countEnter_append, hcl]
        omega
      | inr p =>
        rcases p with ⟨off2, s2⟩
        rw [hsp] at hl
        simp only [sendState] at hl
        have hack := ackPhase_state_fields dt addr W i s2
        cases hap : ackPhase dt addr W i s2 with
        | inl p2 =>
          rcases p2 with ⟨b2, s3⟩
          rw [hap] at hack
          simp only [ackState] at hack
          simp only [hap]
          show countEnter s3.sent = countEnter s.sent
          rw [hack.1, hl, countEnter_append, hcl]
          omega
        | inr s3 =>
          rw [hap] at hack
          simp only [ackState] at hack
          simp only [hap]
          show countEnter
              (woState (writeLoopAux dt cs addr data chunks W fuel (i + 1) off2 s3)).sent =
            countEnter s.sent
          rw [ih (i + 1) off2 s3, hack.1, hl, countEnter_append, hcl]
          omega
    · rw [if_neg hi]
      simp [woState]

theorem bootWriteData_countEnter (dt cs addr : Nat) (data : List Nat) (s : BPState) :
    countEnter ((bootWriteData dt cs addr data s).2.sent) = countEnter s.sent := by
  unfold bootWriteData
  have h := writeLoopAux_countEnter dt cs addr data (chunksOf cs data)
    (min (chunksOf cs data) 10)
    (chunksOf cs data + min (chunksOf cs data) 10) 0 0 s
  cases hw : writeLoopAux dt cs addr data (chunksOf cs data) (min (chunksOf cs data) 10)
      (chunksOf cs data + min (chunksOf cs data) 10) 0 0 s with
  | ret b s2 =>
    rw [hw] at h
    simp only [hw]
    simpa [woState] using h
  | cont i2 off2 s2 =>
    rw [hw] at h
    simp only [hw]
    simpa [woState] using h

theorem STEP_countEnter (f k : BPState → Bool × BPState)
    (hf : ∀ s, countEnter ((f s).2.sent) = countEnter s.sent)
    (hk : ∀ s, countEnter ((k s).2.sent) = countEnter s.sent) :
    ∀ s, countEnter ((STEP f k s).2.sent) = countEnter s.sent := by
  intro s
  unfold STEP
  cases hfs : f s with
  | mk b s1 =>
    have hb := hf s
    rw [hfs] at hb
    simp only [hfs]
    cases b
    · simpa using hb
    · cases hw : wasCanceled s1 with
      | mk c s2 =>
        have hwf := wasCanceled_fields s1
        rw [hw] at hwf
        have hb1 : countEnter s1.sent = countEnter s.sent := by simpa using hb
        have h21 : s2.sent = s1.sent := by simpa using hwf.2.1
        cases c
        · simp [hw, hk s2, h21, hb1]
        · simp [hw, h21, hb1]

theorem bootEraseSector_countEnter (sector : Nat) (s : BPState) :
    countEnter ((bootEraseSector sector s).2.sent) = countEnter s.sent := by
  rw [(bootEraseSector_fields sector s).1, countEnter_append]
  rfl

theorem bootVerifyData_countEnter (crc32fn : List Nat → Nat) (dt addr : Nat) (data : List Nat)
    (s : BPState) :
    countEnter ((bootVerifyData crc32fn dt addr data s).2.sent) = countEnter s.sent := by
  rw [(bootVerifyData_fields crc32fn dt addr data s).1, countEnter_append]
  rfl

theorem bootExit_countEnter (dt : Nat) (s : BPState) :
    countEnter ((bootExit dt s).2.sent) = countEnter s.sent := by
  rw [(bootExit_fields dt s).1, countEnter_append]
  rfl

theorem eraseLoop_countEnter (L : List Nat) (k : BPState → Bool × BPState)
    (hk : ∀ s, countEnter ((k s).2.sent) = countEnter s.sent) :
    ∀ s, countEnter ((eraseLoop L k s).2.sent) = countEnter s.sent := by
  induction L with
  | nil => exact hk
  | cons i L ih =>
    exact STEP_countEnter (bootEraseSector i) (eraseLoop L k)
      (bootEraseSector_countEnter i) ih

/-- C3: if no available response ever indicates success, the enter step of
`sendHexFile` performs exactly 100 `bootEnter` attempts (the sent trace grows
by exactly `enterReqs 100`) and the run fails with the overall error
message `"Can't enter boot loader"` — the individual attempts' error strings
are overwritten, only the exhaustion is reported; if the `k`-th attempt is
the first to succeed (`k = fails.length + 1 ≤ 100`), the whole run makes
exactly `k` `bootEnter` attempts: no later pipeline step sends another
enter request. -/
theorem c3_enter_retry_bound (crc32fn : List Nat → Nat) (dt cs start_addr : Nat)
    (data : List Nat) (s : BPState) (hdt : 0 < dt)
    (hc1 : s.cancels = []) (hc2 : s.canceled = false) :
    ((∀ x ∈ availMsgs s, ¬(x.id = MSG_ID_BOOT_RESPONSE ∧ statusOf x = 1)) →
      ∃ s2, sendHexFile crc32fn dt cs start_addr data s = (false, s2)
        ∧ s2.errorString = "Can't enter boot loader"
        ∧ s2.sent = s.sent ++ enterReqs 100
        ∧ countEnter s2.sent = countEnter s.sent + 100)
    ∧ (∀ fails good rest, s.messageQueue = fails ++ good :: rest →
        (∀ x ∈ fails, x.id = MSG_ID_BOOT_RESPONSE ∧ statusOf x ≠ 1) →
        good.id = MSG_ID_BOOT_RESPONSE → statusOf good = 1 →
        fails.length + 1 ≤ 100 →
        countEnter ((sendHexFile crc32fn dt cs start_addr data s).2.sent) =
          countEnter s.sent + (fails.length + 1)) := by
  constructor
  · intro h
    obtain ⟨s2, he, hsent, hcc1, hcc2⟩ := enterLoop_all_fail dt 100
      { s with canceled := false }
      (by intro x hx; exact h x (by simpa [availMsgs] using hx))
      (by simpa using hc1) rfl
    refine ⟨{ s2 with errorString := "Can't enter boot loader" }, ?_, rfl, ?_, ?_⟩
    · simp only [sendHexFile, he]
      rfl
    · simpa using hsent
    · simp only []
      rw [hsent]
      simp only [List.append_assoc]
      rw [countEnter_append, countEnter_enterReqs]
  · intro fails good rest hq hfails hgid hgst hlen
    obtain ⟨s2, he, hmq, hsent, haw, hcc1, hcc2⟩ := enterLoop_succeeds dt hdt 100
      { s with canceled := false } fails good rest
      (by simpa using hc1) rfl (by simpa using hq) hfails hgid hgst hlen
    have hrest : ∀ t : BPState,
        countEnter ((eraseLoop [4, 5, 6, 7, 8, 9, 10, 11]
          (STEP (bootWriteData dt cs (start_addr + 8) (data.drop 8))
            (STEP (bootVerifyData crc32fn dt (start_addr + 8) (data.drop 8))
              (STEP (bootWriteData dt cs start_addr (data.take 8))
                (STEP (bootExit dt) (fun s => (true, s)))))) t).2.sent) =
          countEnter t.sent := by
      apply eraseLoop_countEnter
      apply STEP_countEnter _ _ (fun t => bootWriteData_countEnter dt cs (start_addr + 8)
        (data.drop 8) t)
      apply STEP_countEnter _ _ (fun t => bootVerifyData_countEnter crc32fn dt (start_addr + 8)
        (data.drop 8) t)
      apply STEP_countEnter _ _ (fun t => bootWriteData_countEnter dt cs start_addr
        (data.take 8) t)
      apply STEP_countEnter _ _ (fun t => bootExit_countEnter dt t)
      intro t
      rfl
    simp only [sendHexFile, he]
    simp only [Bool.not_true, Bool.false_eq_true, if_false]
    rw [hrest s2, hsent]
    simp only []
    rw [countEnter_append, countEnter_enterReqs]

/-- Witness for C3: with no traffic at all every attempt times out: 100
attempts then the overall error; with a single successful enter response the
run makes exactly one attempt. -/
theorem c3_witness :
    (∃ s2, sendHexFile (fun _ => 0) 10 1 0 [] ⟨[], [], [], false, "", [], []⟩ = (false, s2)
      ∧ s2.errorString = "Can't enter boot loader"
      ∧ s2.sent = [] ++ enterReqs 100
      ∧ countEnter s2.sent = countEnter ([] : List Req) + 100)
    ∧ countEnter ((sendHexFile (fun _ => 0) 10 1 0 []
        ⟨[⟨7, [1]⟩], [], [], false, "", [], []⟩).2.sent) =
      countEnter ([] : List Req) + (([] : List Msg).length + 1) := by
  constructor
  · exact (c3_enter_retry_bound (fun _ => 0) 10 1 0 [] ⟨[], [], [], false, "", [], []⟩
      (by omega) rfl rfl).1 (by decide)
  · exact (c3_enter_retry_bound (fun _ => 0) 10 1 0 [] ⟨[⟨7, [1]⟩], [], [], false, "", [], []⟩
      (by omega) rfl rfl).2 [] ⟨7, [1]⟩ [] rfl (by decide) rfl rfl (by decide)

theorem ackPhase_inl_false (dt addr W i : Nat) (s : BPState) (b : Bool) (s2 : BPState)
    (h : ackPhase dt addr W i s = Sum.inl (b, s2)) : b = false := by
  unfold ackPhase at h
  by_cases hi : W ≤ i
  · rw [if_pos hi] at h
    cases hg : bootGetResponse dt s with
    | mk o s3 =>
      rw [hg] at h
      cases o with
      | none =>
        simp at h
        exact h.1
      | some res =>
        by_cases hst : statusOf res = FLASH_COMPLETE
        · simp [hst] at h
        · simp [hst] at h
          exact h.1
  · rw [if_neg hi] at h
    cases h

theorem writeLoopAux_nc (dt cs addr : Nat) (data : List Nat) (chunks W : Nat) :
    ∀ fuel i s, s.cancels = [] → s.canceled = false → i + fuel ≤ chunks + W →
    (∃ s2, writeLoopAux dt cs addr data chunks W fuel i (min i chunks * cs) s = .ret false s2)
    ∨ (∃ s2, writeLoopAux dt cs addr data chunks W fuel i (min i chunks * cs) s =
          .cont (i + fuel) (min (i + fuel) chunks * cs) s2
        ∧ s2.sent = s.sent ++ chunkSendsAux cs addr data
            (min (i + fuel) chunks - min i chunks) (min i chunks * cs)
        ∧ s2.cancels = [] ∧ s2.canceled = false) := by
  intro fuel
  induction fuel with
  | zero =>
    intro i s hc1 hc2 hij
    right
    exact ⟨s, by simp [writeLoopAux], by simp [chunkSendsAux], hc1, hc2⟩
  | succ fuel ih =>
    intro i s hc1 hc2 hij
    have hi : i < chunks + W := by omega
    rw [writeLoopAux, if_pos hi]
    by_cases hic : i < chunks
    · rw [sendPhase_send cs addr data chunks i (min i chunks * cs) s hic hc1 hc2]
      have hoff : min i chunks * cs + cs = min (i + 1) chunks * cs := by
        have e1 : min i chunks = i := by omega
        have e2 : min (i + 1) chunks = i + 1 := by omega
        rw [e1, e2]; ring
      have hack := ackPhase_state_fields dt addr W i
        { s with sent := s.sent ++
            [Req.writeData (addr + min i chunks * cs) (midChunk data (min i chunks * cs) cs)] }
      cases hap : ackPhase dt addr W i
          { s with sent := s.sent ++
            [Req.writeData (addr + min i chunks * cs) (midChunk data (min i chunks * cs) cs)] } with
      | inl p =>
        rcases p with ⟨b2, s3⟩
        have hb2 := ackPhase_inl_false dt addr W i _ b2 s3 hap
        subst hb2
        left
        exact ⟨s3, by simp only [hap]⟩
      | inr s3 =>
        rw [hap] at hack
        simp only [ackState] at hack
        have hc1b : s3.cancels = [] := by rw [hack.2.1]; simpa using hc1
        have hc2b : s3.canceled = false := by rw [hack.2.2]; simpa using hc2
        simp only [hap, hoff]
        rcases ih (i + 1) s3 hc1b hc2b (by omega) with ⟨s4, he⟩ | ⟨s4, he, hs, hncc⟩
        · left
          exact ⟨s4, he⟩
        · right
          refine ⟨s4, ?_, ?_, hncc.1, hncc.2⟩
          · rw [he]
            have e3 : i + 1 + fuel = i + (fuel + 1) := by omega
            rw [e3]
          · rw [hs, hack.1]
            have e3 : i + 1 + fuel = i + (fuel + 1) := by omega
            rw [e3]
            have e4 : min (i + (fuel + 1)) chunks - min i chunks =
                (min (i + (fuel + 1)) chunks - min (i + 1) chunks) + 1 := by omega
            rw [e4, chunkSendsAux]
            simp [hoff, List.append_assoc]
    · rw [sendPhase_skip cs addr data chunks i (min i chunks * cs) s hic]
      have hminc : min i chunks = chunks := by omega
      have hoff : min i chunks * cs = min (i + 1) chunks * cs := by
        rw [hminc, show min (i + 1) chunks = chunks from by omega]
      have hack := ackPhase_state_fields dt addr W i s
      cases hap : ackPhase dt addr W i s with
      | inl p =>
        rcases p with ⟨b2, s3⟩
        have hb2 := ackPhase_inl_false dt addr W i _ b2 s3 hap
        subst hb2
        left
        exact ⟨s3, by simp only [hap]⟩
      | inr s3 =>
        rw [hap] at hack
        simp only [ackState] at hack
        have hc1b : s3.cancels = [] := by rw [hack.2.1]; exact hc1
        have hc2b : s3.canceled = false := by rw [hack.2.2]; exact hc2
        simp only [hap, hoff]
        rcases ih (i + 1) s3 hc1b hc2b (by omega) with ⟨s4, he⟩ | ⟨s4, he, hs, hncc⟩
        · left
          exact ⟨s4, he⟩
        · right
          refine ⟨s4, ?_, ?_, hncc.1, hncc.2⟩
          · rw [he]
            have e3 : i + 1 + fuel = i + (fuel + 1) := by omega
            rw [e3]
          · rw [hs, hack.1]
            have e3 : i + 1 + fuel = i + (fuel + 1) := by omega
            rw [e3]
            have e4 : min (i + (fuel + 1)) chunks - min i chunks =
                min (i + (fuel + 1)) chunks - min (i + 1) chunks := by omega
            rw [e4]

theorem bootWriteData_success_nc (dt cs addr : Nat) (data : List Nat) (s : BPState)
    (hc1 : s.cancels = []) (hc2 : s.canceled = false) (b : Bool) (s2 : BPState)
    (h : bootWriteData dt cs addr data s = (b, s2)) (hb : b = true) :
    s2.sent = s.sent ++ chunkSends cs addr data ∧ s2.cancels = [] ∧ s2.canceled = false := by
  subst hb
  simp only [bootWriteData] at h
  have h00 : (0 : Nat) = min 0 (chunksOf cs data) * cs := by simp
  rcases writeLoopAux_nc dt cs addr data (chunksOf cs data) (min (chunksOf cs data) 10)
      (chunksOf cs data + min (chunksOf cs data) 10) 0 s hc1 hc2 (by omega) with
    ⟨s3, he⟩ | ⟨s3, he, hs, hncc⟩
  · rw [← h00] at he
    rw [he] at h
    simp at h
  · rw [← h00] at he
    rw [he] at h
    simp at h
    have hs2 : s3 = s2 := h
    subst hs2
    refine ⟨?_, hncc.1, hncc.2⟩
    rw [hs]
    have e1 : min (0 + (chunksOf cs data + min (chunksOf cs data) 10)) (chunksOf cs data) =
        chunksOf cs data := by omega
    have e2 : min 0 (chunksOf cs data) = 0 := by omega
    rw [e1, e2]
    simp [chunkSends]

theorem enterLoop_nc (dt : Nat) : ∀ fuel (s : BPState),
    s.cancels = [] → s.canceled = false →
    ∃ ok s2 a, enterLoop dt fuel s = .done ok s2
      ∧ s2.sent = s.sent ++ enterReqs a
      ∧ a ≤ fuel ∧ (ok = true → 1 ≤ a)
      ∧ s2.cancels = [] ∧ s2.canceled = false := by
  intro fuel
  induction fuel with
  | zero =>
    intro s hc1 hc2
    exact ⟨false, s, 0, rfl, by simp [enterReqs], by omega, by simp, hc1, hc2⟩
  | succ fuel ih =>
    intro s hc1 hc2
    cases hbe : bootEnter dt s with
    | mk ok1 s1 =>
      have hff := bootEnter_fields dt s
      rw [hbe] at hff
      have hc1b : s1.cancels = [] := by rw [hff.2.1]; exact hc1
      have hc2b : s1.canceled = false := by rw [hff.2.2]; exact hc2
      rw [enterLoop]
      simp only [hbe]
      rw [wasCanceled_noc s1 hc1b hc2b]
      cases ok1 with
      | true =>
        refine ⟨true, s1, 1, by simp, ?_, by omega, by simp, hc1b, hc2b⟩
        rw [hff.1]
        simp [enterReqs]
      | false =>
        simp only [Bool.false_eq_true, if_false]
        obtain ⟨ok, s2, a, he, hsent, hafuel, hok, hcc1, hcc2⟩ := ih s1 hc1b hc2b
        refine ⟨ok, s2, a + 1, he, ?_, by omega, by omega, hcc1, hcc2⟩
        rw [hsent, hff.1, enterReqs_succ, List.append_assoc]

theorem eraseLoop_success_nc (L : List Nat) (k : BPState → Bool × BPState) :
    ∀ s s2, s.cancels = [] → s.canceled = false →
    eraseLoop L k s = (true, s2) →
    ∃ s1, s1.cancels = [] ∧ s1.canceled = false
      ∧ s1.sent = s.sent ++ L.map Req.eraseSector ∧ k s1 = (true, s2) := by
  induction L with
  | nil =>
    intro s s2 hc1 hc2 h
    exact ⟨s, hc1, hc2, by simp, h⟩
  | cons i L ih =>
    intro s s2 hc1 hc2 h
    unfold eraseLoop STEP at h
    cases hes : bootEraseSector i s with
    | mk b s1 =>
      have hff := bootEraseSector_fields i s
      rw [hes] at hff
      cases b with
      | false =>
        simp only [hes] at h
        simp at h
      | true =>
        have hc1b : s1.cancels = [] := by rw [hff.2.1]; exact hc1
        have hc2b : s1.canceled = false := by rw [hff.2.2]; exact hc2
        simp only [hes, Bool.not_true, Bool.false_eq_true, if_false] at h
        rw [wasCanceled_noc s1 hc1b hc2b] at h
        simp only [Bool.false_eq_true, if_false] at h
        obtain ⟨s3, hcc1, hcc2, hsent, hk⟩ := ih s1 s2 hc1b hc2b h
        refine ⟨s3, hcc1, hcc2, ?_, hk⟩
        rw [hsent, hff.1]
        simp [List.append_assoc]

/-- C1: in every run of `sendHexFile` that returns success without any
cancellation, the trace of requests decomposes as: `k ∈ [1, 100]` enter
attempts, the eight sector erases, the chunked writes covering exactly
`[start_addr+8, end)` (the bytes `data.drop 8`), then the verify request
over that same range, and only after it the chunked writes of the withheld
first 8 bytes at `[start_addr, start_addr+8)`, with `bootExit` as the very
last request sent. -/
theorem c1_commit_ordering (crc32fn : List Nat → Nat) (dt cs start_addr : Nat)
    (data : List Nat) (s : BPState)
    (hc1 : s.cancels = []) (hc2 : s.canceled = false)
    (hsucc : (sendHexFile crc32fn dt cs start_addr data s).1 = true) :
    ∃ k, 1 ≤ k ∧ k ≤ 100 ∧
      (sendHexFile crc32fn dt cs start_addr data s).2.sent =
        s.sent ++ enterReqs k ++ eraseReqs
          ++ chunkSends cs (start_addr + 8) (data.drop 8)
          ++ [Req.verify (start_addr + 8) (data.drop 8).length]
          ++ chunkSends cs start_addr (data.take 8)
          ++ [Req.bootExit] := by
  obtain ⟨ok, s1, a, he, hsent1, ha100, hok1, hcc1, hcc2⟩ :=
    enterLoop_nc dt 100 { s with canceled := false } (by simpa using hc1) rfl
  rw [sendHexFile] at hsucc ⊢
  simp only [he] at hsucc ⊢
  cases ok with
  | false => simp at hsucc
  | true =>
    simp only [Bool.not_true, Bool.false_eq_true, if_false] at hsucc ⊢
    cases hel : eraseLoop [4, 5, 6, 7, 8, 9, 10, 11]
        (STEP (bootWriteData dt cs (start_addr + 8) (data.drop 8))
          (STEP (bootVerifyData crc32fn dt (start_addr + 8) (data.drop 8))
            (STEP (bootWriteData dt cs start_addr (data.take 8))
              (STEP (bootExit dt) (fun s => (true, s)))))) s1 with
    | mk be s2 =>
      simp only [hel] at hsucc ⊢
      have hbe : be = true := hsucc
      subst hbe
      obtain ⟨s3, hc31, hc32, hsent3, hk3⟩ :=
        eraseLoop_success_nc _ _ s1 s2 hcc1 hcc2 hel
      -- first write step
      rw [STEP] at hk3
      cases hw1 : bootWriteData dt cs (start_addr + 8) (data.drop 8) s3 with
      | mk bw1 sw1 =>
        cases bw1 with
        | false =>
          simp only [hw1] at hk3
          simp at hk3
        | true =>
          obtain ⟨hsw1, hw1c1, hw1c2⟩ :=
            bootWriteData_success_nc dt cs (start_addr + 8) (data.drop 8) s3 hc31 hc32
              true sw1 hw1 rfl
          simp only [hw1, Bool.not_true, Bool.false_eq_true, if_false] at hk3
          rw [wasCanceled_noc sw1 hw1c1 hw1c2] at hk3
          simp only [Bool.false_eq_true, if_false] at hk3
          -- verify step
          rw [STEP] at hk3
          cases hv : bootVerifyData crc32fn dt (start_addr + 8) (data.drop 8) sw1 with
          | mk bv sv =>
            have hvf := bootVerifyData_fields crc32fn dt (start_addr + 8) (data.drop 8) sw1
            rw [hv] at hvf
            cases bv with
            | false =>
              simp only [hv] at hk3
              simp at hk3
            | true =>
              have hvc1 : sv.cancels = [] := by rw [hvf.2.1]; exact hw1c1
              have hvc2 : sv.canceled = false := by rw [hvf.2.2]; exact hw1c2
              simp only [hv, Bool.not_true, Bool.false_eq_true, if_false] at hk3
              rw [wasCanceled_noc sv hvc1 hvc2] at hk3
              simp only [Bool.false_eq_true, if_false] at hk3
              -- second write step (the withheld entry vector)
              rw [STEP] at hk3
              cases hw2 : bootWriteData dt cs start_addr (data.take 8) sv with
              | mk bw2 sw2 =>
                cases bw2 with
                | false =>
                  simp only [hw2] at hk3
                  simp at hk3
                | true =>
                  obtain ⟨hsw2, hw2c1, hw2c2⟩ :=
                    bootWriteData_success_nc dt cs start_addr (data.take 8) sv hvc1 hvc2
                      true sw2 hw2 rfl
                  simp only [hw2, Bool.not_true, Bool.false_eq_true, if_false] at hk3
                  rw [wasCanceled_noc sw2 hw2c1 hw2c2] at hk3
                  simp only [Bool.false_eq_true, if_false] at hk3
                  -- exit step
                  rw [STEP] at hk3
                  cases hx : bootExit dt sw2 with
                  | mk bx sx =>
                    have hxf := bootExit_fields dt sw2
                    rw [hx] at hxf
                    cases bx with
                    | false =>
                      simp only [hx] at hk3
                      simp at hk3
                    | true =>
                      have hxc1 : sx.cancels = [] := by rw [hxf.2.1]; exact hw2c1
                      have hxc2 : sx.canceled = false := by rw [hxf.2.2]; exact hw2c2
                      simp only [hx, Bool.not_true, Bool.false_eq_true, if_false] at hk3
                      rw [wasCanceled_noc sx hxc1 hxc2] at hk3
                      simp only [Bool.false_eq_true, if_false] at hk3
                      have hs2 : s2 = sx := by
                        have h := hk3
                        simp at h
                        exact h.symm
                      subst hs2
                      refine ⟨a, hok1 rfl, ha100, ?_⟩
                      rw [hxf.1, hsw2, hvf.1, hsw1, hsent3, hsent1]
                      simp [eraseReqs, List.append_assoc]

/-- Witness for C1: a 9-byte image at 0x1000 with chunk size 8 against a
queue answering every request in order (enter ok, eight erases complete,
write complete, verify checksum 0 matching, entry-vector write complete,
exit ok): the successful run's trace decomposes exactly as the commit
ordering requires. -/
theorem c1_witness :
    ∃ k, 1 ≤ k ∧ k ≤ 100 ∧
      (sendHexFile (fun _ => 0) 10 8 4096 [1, 2, 3, 4, 5, 6, 7, 8, 9]
        ⟨[⟨7, [1]⟩, ⟨7, [9]⟩, ⟨7, [9]⟩, ⟨7, [9]⟩, ⟨7, [9]⟩, ⟨7, [9]⟩, ⟨7, [9]⟩, ⟨7, [9]⟩,
          ⟨7, [9]⟩, ⟨7, [9]⟩, ⟨7, [0, 0, 0, 0]⟩, ⟨7, [9]⟩, ⟨7, [1]⟩],
          [], [], false, "", [], []⟩).2.sent =
        ([] : List Req) ++ enterReqs k ++ eraseReqs
          ++ chunkSends 8 (4096 + 8) ([1, 2, 3, 4, 5, 6, 7, 8, 9].drop 8)
          ++ [Req.verify (4096 + 8) ([1, 2, 3, 4, 5, 6, 7, 8, 9].drop 8).length]
          ++ chunkSends 8 4096 ([1, 2, 3, 4, 5, 6, 7, 8, 9].take 8)
          ++ [Req.bootExit] := by
  exact c1_commit_ordering (fun _ => 0) 10 8 4096 [1, 2, 3, 4, 5, 6, 7, 8, 9]
    ⟨[⟨7, [1]⟩, ⟨7, [9]⟩, ⟨7, [9]⟩, ⟨7, [9]⟩, ⟨7, [9]⟩, ⟨7, [9]⟩, ⟨7, [9]⟩, ⟨7, [9]⟩,
      ⟨7, [9]⟩, ⟨7, [9]⟩, ⟨7, [0, 0, 0, 0]⟩, ⟨7, [9]⟩, ⟨7, [1]⟩],
      [], [], false, "", [], []⟩ rfl rfl (by decide)
